import Mathlib

/-!
Verification of the conversational calendar bot
(`calendarHandler.ts`, `intelligentPlanner.ts`, `responseFormatter.ts`,
`lineHandler.ts`) against its natural-language specification.

The TypeScript sources are shallowly embedded:
* optional JSON fields become `Option` values, with JavaScript truthiness
  (`undefined`/`""`/`0` are falsy) modelled explicitly;
* JavaScript `Date` values are modelled as integers: calendar days are
  days since 1970-01-01 (so `getDay()` is `(d + 4) % 7`, `0` = Sunday),
  instants are minutes since the epoch in the handler's local time zone;
* the external collaborators (the Gemini "oracle", the Google Calendar
  event store, the Google Sheet user store, the LINE push channel) become
  an explicit environment `Env`; calls that can raise are `Except Unit`
  valued, and handler methods run in a small state monad `M` that records
  the externally visible effects (state writes, deletions, pushes, ...)
  and propagates exceptions exactly where the source lacks `try`/`catch`.
-/

namespace LineBot

/-- JavaScript truthiness of an optional string field
(`undefined` and `""` are falsy). -/
def truthy : Option String → Bool
  | none => false
  | some s => !s.isEmpty

/-- JavaScript truthiness of an optional numeric field
(`undefined` and `0` are falsy). -/
def truthyNat : Option Nat → Bool
  | none => false
  | some n => n != 0

/-- Models the JavaScript idiom `a || b` on optional string fields:
`a` if truthy, otherwise `b`. -/
def jsOrStr (a b : Option String) : Option String :=
  if truthy a then a else b

/-- Models `o || fallback` where `o` is an optional string and the result is
used as a string: a falsy value (missing or empty) selects the fallback. -/
def jsOrElse (o : Option String) (fallback : String) : String :=
  match o with
  | none => fallback
  | some s => if s.isEmpty then fallback else s

/-- Models `s.toLowerCase()` (faithful on the ASCII range, identity on the
CJK characters used by the handler's token lists). -/
def jsToLowerCase (s : String) : String := String.mk (s.data.map Char.toLower)

/-- Models `s.trim()` of JavaScript: strip leading and trailing
whitespace. -/
def jsTrim (s : String) : String :=
  String.mk (((s.data.dropWhile Char.isWhitespace).reverse.dropWhile Char.isWhitespace).reverse)

/-- Substring search on character lists (`needle` occurs in `hay`). -/
def containsSub (hay needle : List Char) : Bool :=
  match hay with
  | [] => needle.isEmpty
  | _ :: t => needle.isPrefixOf hay || containsSub t needle

/-- Models `s.includes(sub)` of JavaScript: `sub` occurs as a substring
of `s`. -/
def jsIncludes (s sub : String) : Bool := containsSub s.data sub.data

/-- Split a string at every occurrence of a separator character
(`s.split(sep)` for the single-character separators the handler uses). -/
def splitCharAux (sep : Char) : List Char → List Char → List (List Char)
  | [], acc => [acc.reverse]
  | c :: cs, acc =>
    if c == sep then acc.reverse :: splitCharAux sep cs []
    else splitCharAux sep cs (c :: acc)

/-- Split a string on a separator character. -/
def splitOnChar (sep : Char) (s : String) : List String :=
  (splitCharAux sep s.data []).map String.mk

/-- Digit-list numeral parsing (`String.toNat?` on the numeric fields of
date strings). -/
def listToNat? (cs : List Char) : Option Nat :=
  if cs.isEmpty then none
  else
    cs.foldl
      (fun acc c =>
        match acc with
        | some n => if c.isDigit then some (n * 10 + (c.toNat - 48)) else none
        | none => none)
      (some 0)

/-- Numeral parsing on strings. -/
def strToNat? (s : String) : Option Nat := listToNat? s.data

/-- One step of a proposed plan (`PlanEvent` in `calendarHandler.ts`):
`{summary, date?, startTime?, duration_hours?, objectiveId?}`.
`duration_hours` is modelled at integral hours, the only values the
planner prompts produce. -/
structure PlanEvent where
  summary : String
  date : Option String := none
  startTime : Option String := none
  duration_hours : Option Nat := none
  objectiveId : Option Nat := none
deriving DecidableEq

/-- `start`/`end` time object of a Google Calendar event
(`EventDateTime` in `responseFormatter.ts`): all-day events carry `date`,
timed events carry `dateTime`. -/
structure EventDateTime where
  date : Option String := none
  dateTime : Option String := none
deriving DecidableEq

/-- A calendar event as the handler sees it (id and summary for deletion,
start/end for rendering).  The formatter's `GoogleCalendarEvent` is the
same object without the id. -/
structure CalEvent where
  id : String := ""
  summary : String
  start : EventDateTime := {}
  endT : EventDateTime := {}
deriving DecidableEq

/-! ## Date arithmetic

`new Date` values are embedded as integers.  `parseDateDays` maps a
`"YYYY-MM-DD"` string to its day index (days since 1970-01-01) using the
standard civil-from-days formula, so `getDay` below agrees with
JavaScript's `Date.prototype.getDay` (0 = Sunday, 6 = Saturday). -/

/-- Days since 1970-01-01 of a proleptic Gregorian date (Howard Hinnant's
`days_from_civil`; all intermediate values are nonnegative for the years
the handler manipulates). -/
def daysFromCivil (y m d : Int) : Int :=
  let y' := if m ≤ 2 then y - 1 else y
  let era := (if 0 ≤ y' then y' else y' - 399) / 400
  let yoe := y' - era * 400
  let mp := (m + 9) % 12
  let doy := (153 * mp + 2) / 5 + d - 1
  let doe := yoe * 365 + yoe / 4 - yoe / 100 + doy
  era * 146097 + doe - 719468

/-- Models parsing a `"YYYY-MM-DD"` string into its day index
(`new Date(s + "T09:00:00")`, date part, local time). -/
def parseDateDays (s : String) : Nat :=
  match splitOnChar '-' s with
  | [y, m, d] =>
    (daysFromCivil ((strToNat? y).getD 0) ((strToNat? m).getD 1) ((strToNat? d).getD 1)).toNat
  | _ => 0

/-- The date part of an ISO datetime string: models
`new Date(s).toISOString().split("T")[0]` for strings that are already in
normalized form (the `"YYYY-MM-DD"` and `"YYYY-MM-DDTHH:mm:ss"` values
the oracle is instructed to emit). -/
def isoDatePart (s : String) : String :=
  String.mk (s.data.takeWhile (fun c => !(c == 'T')))

/-- The `"HH:mm"` slice of an ISO datetime string: models
`toLocaleTimeString("zh-TW", {hour: "2-digit", minute: "2-digit",
hour12: false})` for normalized local ISO input. -/
def timeHHMM (s : String) : String := String.mk ((s.data.drop 11).take 5)

/-- Models parsing a full ISO datetime string into minutes since the epoch
(for normalized local ISO input, as above). -/
def parseDateTimeMinutes (s : String) : Nat :=
  let dayPart := isoDatePart s
  let timePart := (s.data.dropWhile (fun c => !(c == 'T'))).drop 1
  let hh := (listToNat? (timePart.takeWhile (fun c => !(c == ':')))).getD 0
  let mm := (listToNat? ((timePart.dropWhile (fun c => !(c == ':'))).drop 1 |>.take 2)).getD 0
  parseDateDays dayPart * 1440 + hh * 60 + mm

/-- `Date.prototype.getDay` on a day index: 0 = Sunday ... 6 = Saturday
(1970-01-01 was a Thursday). -/
def getDay (d : Nat) : Nat := (d + 4) % 7

/-- The weekend-skipping `while` loop of `handleCreatePlan`
(`while (getDay() === 0 || getDay() === 6) setDate(+1)`), run with fuel 7;
the loop body executes at most twice, so the fuel is never exhausted. -/
def skipWeekendFuel : Nat → Nat → Nat
  | 0, d => d
  | f + 1, d => if getDay d == 0 || getDay d == 6 then skipWeekendFuel f (d + 1) else d

/-- The weekend-skipping loop of `handleCreatePlan`. -/
def skipWeekend (d : Nat) : Nat := skipWeekendFuel 7 d

/-! ## `handleCreatePlan` (plan commit) -/

/-- Truthiness-with-default of `item.duration_hours || 1`. -/
def jsDuration : Option Nat → Nat
  | none => 1
  | some 0 => 1
  | some n => n

/-- The per-item start computation of `handleCreatePlan`: a step with a
truthy `date` starts on that date at 09:00 and leaves the cursor alone; a
step with a truthy `startTime` starts at that instant and leaves the
cursor alone; an undated step starts at 09:00 on the next non-weekend
cursor day and advances the cursor one day past it.
Returns `(startMinutes, newCursorDay)`. -/
def stepStart (cursor : Nat) (item : PlanEvent) : Nat × Nat :=
  if truthy item.date then
    (parseDateDays (item.date.getD "") * 1440 + 540, cursor)
  else if truthy item.startTime then
    (parseDateTimeMinutes (item.startTime.getD ""), cursor)
  else
    let d := skipWeekend cursor
    (d * 1440 + 540, d + 1)

/-- Outcome of one loop iteration of `handleCreatePlan`: the event data it
built and whether the event store accepted the creation. -/
structure StepOutcome where
  summary : String
  startMin : Nat
  endMin : Nat
  created : Bool
deriving DecidableEq

/-- The `for (const item of plan)` loop of `handleCreatePlan`.
`createOk i` tells whether the event store accepts the `i`-th creation
attempt; a rejection is swallowed (`try`/`catch` around `createEvent`)
and the loop continues. -/
def runPlan (createOk : Nat → Bool) : Nat → Nat → List PlanEvent → List StepOutcome
  | _, _, [] => []
  | idx, cursor, item :: rest =>
    let sc := stepStart cursor item
    { summary := item.summary
      startMin := sc.1
      endMin := sc.1 + jsDuration item.duration_hours * 60
      created := createOk idx } :: runPlan createOk (idx + 1) sc.2 rest

/-- Result of `handleCreatePlan`. -/
structure CommitResult where
  createdCount : Nat
  steps : List StepOutcome
  reply : String
deriving DecidableEq

/-- The success reply of `handleCreatePlan` for `n` created events. -/
def createPlanSuccessReply (n : Nat) : String :=
  "✅ 太棒了！已為您將 " ++ toString n ++ " 個任務行程新增到您的 Google Calendar！"

/-- The zero-success reply of `handleCreatePlan`. -/
def createPlanFailureReply : String :=
  "⚠️ 雖然收到了您的指令，但沒有成功新增任何行程，請檢查後再試。"

/-- `CalendarHandler.handleCreatePlan`: the scheduling cursor starts at
09:00 tomorrow (`today + 1`), each step is attempted against the event
store, failures are counted as non-creations, and the reply depends on
whether any step succeeded. -/
def handleCreatePlan (createOk : Nat → Bool) (today : Nat) (plan : List PlanEvent) :
    CommitResult :=
  let steps := runPlan createOk 0 (today + 1) plan
  let createdCount := (steps.filter (·.created)).length
  { createdCount := createdCount
    steps := steps
    reply := if createdCount > 0 then createPlanSuccessReply createdCount
             else createPlanFailureReply }

/-! ## `formatEventsForLine` (response formatter)

`responseFormatter.ts`.  The JavaScript `Map` keeps keys in insertion
order, so the grouping is embedded as an association list to which
`addToGroup` appends. -/

/-- Models `new Date(dateKey + "T00:00:00").toLocaleDateString("zh-TW")`:
`"2025-08-05"` renders as `"2025/8/5"`. -/
def localeDateZhTW (dateKey : String) : String :=
  match splitOnChar '-' dateKey with
  | [y, m, d] =>
    y ++ "/" ++ toString ((strToNat? m).getD 0) ++ "/" ++ toString ((strToNat? d).getD 0)
  | _ => dateKey

/-- Chinese weekday names, indexed by `getDay` (0 = Sunday). -/
def weekdayNameZhTW (w : Nat) : String :=
  ["星期日", "星期一", "星期二", "星期三", "星期四", "星期五", "星期六"].getD w ""

/-- Models `toLocaleDateString("zh-TW", {year, month, day, weekday})` on a
date key: `"2025年8月15日 星期五"`. -/
def localeDateFullZhTW (dateKey : String) : String :=
  match splitOnChar '-' dateKey with
  | [y, m, d] =>
    y ++ "年" ++ toString ((strToNat? m).getD 0) ++ "月" ++ toString ((strToNat? d).getD 0) ++
      "日 " ++ weekdayNameZhTW (getDay (parseDateDays dateKey))
  | _ => dateKey

/-- `formatEventTime` of `responseFormatter.ts`: a timed event renders its
`HH:mm` start (and end when present), an all-day event renders `(全天)`. -/
def formatEventTime (event : CalEvent) : String :=
  if truthy event.start.dateTime then
    let startTime := timeHHMM (event.start.dateTime.getD "")
    let endTime :=
      if truthy event.endT.dateTime then timeHHMM (event.endT.dateTime.getD "") else ""
    if !endTime.isEmpty then "\n   🕐 " ++ startTime ++ " - " ++ endTime
    else "\n   🕐 " ++ startTime
  else " (全天)"

/-- The grouping key of an event:
`event.start.dateTime || event.start.date`, skipped when falsy, otherwise
truncated to its date part. -/
def startKey (e : CalEvent) : Option String :=
  let r := jsOrStr e.start.dateTime e.start.date
  if truthy r then some (isoDatePart (r.getD "")) else none

/-- Insertion into the (insertion-ordered) `eventsByDate` map: append to
an existing group, or append a new group at the end. -/
def addToGroup (m : List (String × List CalEvent)) (k : String) (e : CalEvent) :
    List (String × List CalEvent) :=
  match m with
  | [] => [(k, [e])]
  | (k', es) :: rest =>
    if k' = k then (k', es ++ [e]) :: rest else (k', es) :: addToGroup rest k e

/-- `eventsByDate.get` (first entry with the given key). -/
def lookupGroup : List (String × List CalEvent) → String → Option (List CalEvent)
  | [], _ => none
  | (k, es) :: rest, key => if k = key then some es else lookupGroup rest key

/-- One `events.forEach` iteration of the grouping loop. -/
def groupStep (m : List (String × List CalEvent)) (e : CalEvent) :
    List (String × List CalEvent) :=
  match startKey e with
  | none => m
  | some k => addToGroup m k e

/-- Step 1 of `formatEventsForLine`: group events by calendar date,
skipping events with no usable start. -/
def groupByDate (events : List CalEvent) : List (String × List CalEvent) :=
  events.foldl groupStep []

/-- One numbered line of the single-day rendering. -/
def singleDayLine (p : Nat × CalEvent) : String :=
  "\n" ++ toString (p.1 + 1) ++ ". " ++ p.2.summary ++ formatEventTime p.2

/-- One `- ` line of the multi-day rendering. -/
def multiDayLine (ev : CalEvent) : String :=
  "  - " ++ ev.summary ++ formatEventTime ev ++ "\n"

/-- One date section of the multi-day rendering. -/
def multiDaySection (m : List (String × List CalEvent)) (dateKey : String) : String :=
  "\n--- " ++ localeDateFullZhTW dateKey ++ " ---\n" ++
    String.join (((lookupGroup m dateKey).getD []).map multiDayLine)

/-- Step 2 of `formatEventsForLine`: one distinct date gives a flat
numbered list, several give one section per date, dates sorted ascending
(`Array.from(keys).sort()` on ISO date keys). `total` is `events.length`. -/
def renderGrouped (total : Nat) (m : List (String × List CalEvent)) : String :=
  if m.length == 1 then
    match m with
    | (dateKey, dailyEvents) :: _ =>
      "📅 您在 " ++ localeDateZhTW dateKey ++ " 有 " ++ toString dailyEvents.length ++
        " 個行程:\n" ++ String.join (dailyEvents.enum.map singleDayLine)
    | [] => ""
  else
    let sortedDates := List.insertionSort (· ≤ ·) (m.map Prod.fst)
    "📅 為您找到跨越多日的 " ++ toString total ++ " 個行程：\n" ++
      String.join (sortedDates.map (multiDaySection m))

/-- `formatEventsForLine` of `responseFormatter.ts`. -/
def formatEventsForLine (events : List CalEvent) : String :=
  if events.isEmpty then "📅 太好了，這段時間內沒有任何安排！"
  else renderGrouped events.length (groupByDate events)

/-! ## Intents, conversation state and the effect monad -/

/-- `create_event` parameters (`intent.params`); every field may be
missing in the oracle's `any`-typed output. -/
structure CreateParams where
  summary : Option String := none
  startTime : Option String := none
  endTime : Option String := none
deriving DecidableEq

/-- A structured intent as returned by the oracle
(`IntelligentPlanner.understandAndPlan` / `analyzeImageAndPlan` /
`modifyPlan`): an action tag plus its parameters.  `other` stands for any
unlisted action tag and lands in the `default` branch of the dispatch. -/
inductive Intent where
  | planComplexTask (plan : List PlanEvent) (objectiveTitle : Option String)
  | planGenericTask (plan : List PlanEvent)
  | planForObjective (objectiveTitle : String)
  | listEvents (timeRange : Option String)
  | createEvent (params : Option CreateParams)
  | clarifyOrReject (response : Option String)
  | deleteEvent (query : Option String)
  | createLearningObjective (title : Option String) (dueDate : Option String)
  | linkNoteToObjective (objectiveTitle : Option String)
  | reconstructKnowledge (source : Option String)
  | other
deriving DecidableEq

/-- `intent.params?.response` as read by the waiting-confirmation branch. -/
def intentResponse : Intent → Option String
  | .clarifyOrReject r => r
  | _ => none

/-- A learning-objective row of the user store. -/
structure Objective where
  objective_id : Nat
  title : String
  due_date : Option String := none
deriving DecidableEq

/-- The per-user conversation state as stored in `state_json`
(`{status, ...}` objects).  `unknownTag` is a successfully parsed object
whose `status` is none of the recognized tags. -/
inductive UserState where
  | waitingConfirmation (plan : List PlanEvent)
  | waitingDeleteConfirmation (events : List CalEvent)
  | waitingPlanCorrection (draftPlan : Intent)
  | waitingKnowledgeAction (noteId : Option Nat)
  | unknownTag
deriving DecidableEq

/-- The persisted representation of the state cell: a well-formed JSON
document, or text that `JSON.parse` rejects. -/
inductive RawState where
  | ok (s : UserState)
  | malformed
deriving DecidableEq

/-- `parseDeletionChoice` results: `{selection: indices[] | "all" | "none"}`. -/
inductive DeletionChoice where
  | all
  | indices (is : List Nat)
  | noneSel
deriving DecidableEq

/-- `mergePlanWithCorrection` results: a merged plan, or `{error: ...}`. -/
inductive MergeResult where
  | ok (plan : List PlanEvent)
  | err
deriving DecidableEq

/-- The user context handed to `handleMessage`
(`{rowNumber, user}`; `userId` is `user.id`). -/
structure UserCtx where
  rowNumber : Nat := 0
  userId : Nat := 0
  state_json : Option RawState := none

/-- The externally visible effects of one handler run. -/
structure Trace where
  stateWrites : List (Option UserState) := []
  deletedIds : List String := []
  createPlanCalls : List (List PlanEvent) := []
  understandCalls : List String := []
  pushes : List String := []
  linkedNotes : List (Nat × Nat) := []
deriving DecidableEq

/-- The handler monad: state is the effect trace, exceptions model
JavaScript throws that the source does not catch locally. -/
def M (α : Type) : Type := Trace → Except Unit α × Trace

instance : Monad M where
  pure a := fun t => (.ok a, t)
  bind m f := fun t =>
    match m t with
    | (.ok a, t') => f a t'
    | (.error e, t') => (.error e, t')

/-- A raised exception (propagates until a `try`/`catch`). -/
def throwM {α : Type} : M α := fun t => (.error (), t)

/-- Lift a possibly-raising external result into the monad. -/
def liftExc {α : Type} (e : Except Unit α) : M α := fun t => (e, t)

/-- A JavaScript `try { m } catch { return fallback }`: effects performed
before the throw are kept. -/
def catchWith (m : M String) (fallback : String) : M String := fun t =>
  match m t with
  | (.error _, t') => (.ok fallback, t')
  | r => r

/-- `try { m } catch { h }` at unit type (the background task). -/
def tryCatchUnit (m h : M Unit) : M Unit := fun t =>
  match m t with
  | (.error _, t') => h t'
  | r => r

/-- The external collaborators of one message handling, as data: the
oracle's replies (total: `IntelligentPlanner` catches its own API errors
and returns fallback intents), and whether each store/channel call
succeeds or raises. -/
structure Env where
  understandAndPlan : String → Intent
  modifyPlan : List PlanEvent → String → Intent
  parseDeletionChoice : String → Nat → DeletionChoice
  mergePlanWithCorrection : Intent → String → MergeResult
  processKnowledge : Nat → String → String
  generatePlanForObjective : String → List PlanEvent
  analyzeImageAndPlan : Intent
  setUserStateOk : Bool := true
  deleteEventOk : Bool := true
  createEventOk : Nat → Bool := fun _ => true
  createSingleOk : Bool := true
  searchEvents : String → Except Unit (List CalEvent) := fun _ => .ok []
  listEvents : String → Except Unit (List CalEvent) := fun _ => .ok []
  findObjectiveByTitle : Nat → String → Except Unit (Option Objective) := fun _ _ => .ok none
  createLearningObjective : Nat → String → Option String → Except Unit Objective :=
    fun _ t _ => .ok { objective_id := 0, title := t }
  linkEventToObjectiveOk : Bool := true
  linkNoteToObjectiveOk : Bool := true
  getKnowledgeNoteById : Nat → Except Unit (Option Nat) := fun n => .ok (some n)
  saveKnowledgeNote : Except Unit Nat := .ok 0
  todayDay : Nat := 20300
  pushOk : Bool := true
  hasLineHandler : Bool := true

/-- `sheetService.setUserState`: on success the write is recorded, on
failure the exception propagates and nothing is persisted. -/
def setUserStateM (env : Env) (s : Option UserState) : M Unit := fun t =>
  if env.setUserStateOk then (.ok (), { t with stateWrites := t.stateWrites ++ [s] })
  else (.error (), t)

/-- `googleCalendarService.deleteEventById`. -/
def deleteEventByIdM (env : Env) (id : String) : M Unit := fun t =>
  if env.deleteEventOk then (.ok (), { t with deletedIds := t.deletedIds ++ [id] })
  else (.error (), t)

/-- `IntelligentPlanner.understandAndPlan` (total, but the call is
recorded so oracle consultations are observable). -/
def callUnderstand (env : Env) (msg : String) : M Intent := fun t =>
  (.ok (env.understandAndPlan msg), { t with understandCalls := t.understandCalls ++ [msg] })

/-- `sheetService.linkNoteToObjective`. -/
def linkNoteToObjectiveM (env : Env) (noteId objectiveId : Nat) : M Unit := fun t =>
  if env.linkNoteToObjectiveOk then
    (.ok (), { t with linkedNotes := t.linkedNotes ++ [(noteId, objectiveId)] })
  else (.error (), t)

/-- `this.handleCreatePlan(plan)`: records the commit call and returns
the commit reply (the commit itself never raises: each step's store call
is wrapped in its own `try`/`catch`). -/
def handleCreatePlanM (env : Env) (plan : List PlanEvent) : M String := fun t =>
  (.ok (handleCreatePlan env.createEventOk env.todayDay plan).reply,
    { t with createPlanCalls := t.createPlanCalls ++ [plan] })

/-- `lineHandler.pushMessage`: a successful push is recorded, a failing
one raises. -/
def pushMessageM (env : Env) (text : String) : M Unit := fun t =>
  if env.pushOk then (.ok (), { t with pushes := t.pushes ++ [text] })
  else (.error (), t)

/-! ## Plan renderers -/

/-- The fixed closing line of `formatPlanForConfirmation`. -/
def confirmTail : String :=
  "如果您同意這個規劃，請回覆「好」，我就會將它排入您的行事曆！(或提出您的修改意見)"

/-- One stage block of `formatPlanForConfirmation`. -/
def planItemBlock (p : Nat × PlanEvent) : String :=
  "🗓️ **階段 " ++ toString (p.1 + 1) ++ ": " ++ p.2.summary ++ "**\n" ++
    (if truthy p.2.date then
      "   - **日期:** " ++ localeDateZhTW (p.2.date.getD "") ++ "\n" else "") ++
    (if truthy p.2.startTime then
      "   - **時間:** " ++ localeDateZhTW (isoDatePart (p.2.startTime.getD "")) ++ " " ++
        timeHHMM (p.2.startTime.getD "") ++ "\n" else "") ++
    (if truthyNat p.2.duration_hours then
      "   - **時長:** 約 " ++ toString (p.2.duration_hours.getD 0) ++ " 小時\n" else "") ++
    "\n"

/-- `formatPlanForConfirmation(plan, showGreeting)`: optional greeting,
one 1-indexed block per step, fixed closing line. -/
def formatPlanForConfirmation (plan : List PlanEvent) (showGreeting : Bool) : String :=
  (if showGreeting then "這是為您建議的計畫草案，您覺得如何？\n\n" else "") ++
    String.join (plan.enum.map planItemBlock) ++ confirmTail

/-- The fixed closing line of `formatIncompletePlanAsTemplate`. -/
def incompleteTail : String := "您可以像這樣回覆：『事件1的日期是8/18，事件2是8/20』"

/-- One event block of `formatIncompletePlanAsTemplate`. -/
def incompleteItemBlock (p : Nat × PlanEvent) : String :=
  "**事件 " ++ toString (p.1 + 1) ++ ":** " ++ p.2.summary ++ "\n" ++
    "  **日期:** " ++ jsOrElse (jsOrStr p.2.date p.2.startTime) "【請幫我填寫這個日期】" ++
    "\n\n"

/-- `formatIncompletePlanAsTemplate(plan)`. -/
def formatIncompletePlanAsTemplate (plan : List PlanEvent) : String :=
  "好的，我從圖片中找到了這些活動，但有些日期不清楚，能請您幫忙提供嗎？\n\n" ++
    String.join (plan.enum.map incompleteItemBlock) ++ incompleteTail

/-! ## `handleMessage` -/

/-- The pure-confirmation token list of the waiting-confirmation branch. -/
def pureConfirmTerms : List String :=
  ["好", "可以", "ok", "沒問題", "是的", "同意", "好啊", "可以啊"]

/-- The negative token list of the waiting-confirmation branch. -/
def negativeResponses : List String := ["不用", "取消", "不要", "不對"]

/-- The `case 'waiting_confirmation'` branch of `handleMessage`. -/
def waitingConfirmationBranch (env : Env) (plan : List PlanEvent) (message : String) :
    M String := do
  let messageTrimmed := jsTrim message
  let isPureConfirmation :=
    pureConfirmTerms.contains messageTrimmed && messageTrimmed.length < 5
  if isPureConfirmation then
    setUserStateM env none
    handleCreatePlanM env plan
  else if negativeResponses.any (fun resp => jsIncludes (jsToLowerCase messageTrimmed) resp) then
    setUserStateM env none
    pure "好的，已為您取消安排。"
  else
    match env.modifyPlan plan message with
    | .planComplexTask newPlan _ =>
      setUserStateM env (some (.waitingConfirmation newPlan))
      pure ("好的，這是為您調整後的計畫，您覺得如何？\n\n" ++
        formatPlanForConfirmation newPlan false)
    | modifiedIntent =>
      setUserStateM env none
      pure (jsOrElse (intentResponse modifiedIntent) "抱歉，我不太能理解您的修改。")

/-- The `selection === 'all'` loop of the delete-confirmation branch:
delete every candidate, collecting count and summaries. -/
def deleteAllM (env : Env) : List CalEvent → M (Nat × List String)
  | [] => pure (0, [])
  | e :: rest => do
    deleteEventByIdM env e.id
    let r ← deleteAllM env rest
    pure (r.1 + 1, e.summary :: r.2)

/-- The index-list loop of the delete-confirmation branch: out-of-range
indices are skipped (`if (eventsToDelete[index])`). -/
def deleteIndicesM (env : Env) (evs : List CalEvent) : List Nat → M (Nat × List String)
  | [] => pure (0, [])
  | i :: rest =>
    match evs.get? i with
    | some ev => do
      deleteEventByIdM env ev.id
      let r ← deleteIndicesM env evs rest
      pure (r.1 + 1, ev.summary :: r.2)
    | none => deleteIndicesM env evs rest

/-- The `case 'waiting_delete_confirmation'` branch of `handleMessage`. -/
def waitingDeleteBranch (env : Env) (eventsToDelete : List CalEvent) (message : String) :
    M String := do
  let choiceResult := env.parseDeletionChoice message eventsToDelete.length
  let r ←
    match choiceResult with
    | .all => deleteAllM env eventsToDelete
    | .indices is => deleteIndicesM env eventsToDelete is
    | .noneSel => pure (0, [])
  setUserStateM env none
  if r.1 > 0 then
    pure ("✅ 操作完成！已成功刪除 " ++ toString r.1 ++ " 個行程：\n- " ++
      String.intercalate "\n- " r.2)
  else
    pure "好的，已取消刪除操作。"

/-- The `case 'waiting_plan_correction'` branch of `handleMessage`. -/
def planCorrectionBranch (env : Env) (draftPlan : Intent) (message : String) : M String := do
  match env.mergePlanWithCorrection draftPlan message with
  | .err =>
    setUserStateM env none
    pure "抱歉，合併您的修正時發生錯誤，請再試一次。"
  | .ok plan =>
    setUserStateM env (some (.waitingConfirmation plan))
    pure ("太好了！這是更新後的完整計畫，您看一下是否正確？\n\n" ++
      formatPlanForConfirmation plan false)

/-- The `case 'waiting_knowledge_action'` branch of `handleMessage`. -/
def knowledgeActionBranch (env : Env) (user : UserCtx) (noteId : Option Nat)
    (message : String) : M String := do
  if !truthyNat noteId then
    setUserStateM env none
    pure "抱歉，我忘記我們正在討論哪份筆記了，我們可以重新開始嗎？"
  else
    let n := noteId.getD 0
    let intent ← callUnderstand env message
    match intent with
    | .linkNoteToObjective objectiveTitleOpt =>
      if truthy objectiveTitleOpt then
        let objectiveTitle := objectiveTitleOpt.getD ""
        let objective ← liftExc (env.findObjectiveByTitle user.userId objectiveTitle)
        match objective with
        | none =>
          pure ("🤔 找不到名為「" ++ objectiveTitle ++
            "」的學習目標。您可以先建立它，或檢查名稱是否正確。")
        | some obj => do
          linkNoteToObjectiveM env n obj.objective_id
          setUserStateM env none
          pure ("✅ 好的，已將這份筆記歸檔到您的學習目標「" ++ obj.title ++ "」中！")
      else
        knowledgeFallback env n message
    | _ => knowledgeFallback env n message
where
  /-- The content-generation path (`情況 B`) shared by the non-archive
  cases. -/
  knowledgeFallback (env : Env) (n : Nat) (message : String) : M String := do
    let knowledgeData ← liftExc (env.getKnowledgeNoteById n)
    match knowledgeData with
    | none =>
      setUserStateM env none
      pure "抱歉，讀取筆記資料時發生錯誤。"
    | some kd =>
      let finalResult := env.processKnowledge kd message
      setUserStateM env none
      pure finalResult

/-- The apology of the fresh-request `catch`. -/
def freshApology : String := "😅 抱歉，處理您的請求時發生錯誤，請稍後再試。"

/-- `handleListEvents` (its own `try`/`catch`). -/
def handleListEventsM (env : Env) (timeRangeOpt : Option String) : M String :=
  catchWith
    (do
      let timeRange := jsOrElse timeRangeOpt "today"
      let events ← liftExc (env.listEvents timeRange)
      pure (formatEventsForLine events))
    "📅 抱歉，查詢日曆事件時發生錯誤，請確認您的 Google 連接正常。"

/-- `handleCreateEvent` (its own `try`/`catch`); the started event is
echoed back with its locale-rendered start. -/
def handleCreateEventM (env : Env) (params : Option CreateParams) : M String :=
  catchWith
    (do
      match params with
      | none => pure "📝 抱歉，我需要明確的「事件標題」和「開始時間」才能為您新增行程喔！"
      | some p =>
        if !(truthy p.summary) || !(truthy p.startTime) then
          pure "📝 抱歉，我需要明確的「事件標題」和「開始時間」才能為您新增行程喔！"
        else do
          let startTime := p.startTime.getD ""
          if env.createSingleOk then
            pure ("✅ 行程新增成功！\n\n📅 " ++ p.summary.getD "" ++ "\n🕐 " ++
              localeDateZhTW (isoDatePart startTime) ++ " " ++ timeHHMM startTime)
          else throwM)
    "📅 抱歉，新增行程時發生錯誤，請檢查您的時間格式是否正確。"

/-- `handleDeleteRequest`: search, then either clarify, report not-found,
or store the candidates in `waiting_delete_confirmation` state. -/
def handleDeleteRequestM (env : Env) (query : Option String) : M String := do
  if !truthy query then
    pure "🤔 請告訴我要刪除哪個行程呢？例如：「刪除明天的會議」。"
  else
    let q := query.getD ""
    let foundEvents ← liftExc (env.searchEvents q)
    if foundEvents.isEmpty then
      pure ("🔍 找不到與「" ++ q ++ "」相關的行程。")
    else do
      let response :=
        match foundEvents with
        | [event] =>
          "我只找到一個行程符合條件：\n\n📅 " ++ event.summary ++ "\n🕐 " ++
            localeDateZhTW (isoDatePart (event.start.dateTime.getD "")) ++
            "\n\n確定要刪除它嗎？(請回覆'是'或'否')"
        | _ =>
          "好的，我找到了 " ++ toString foundEvents.length ++ " 個符合條件的行程：\n\n" ++
            String.join (foundEvents.enum.map (fun p =>
              toString (p.1 + 1) ++ ". " ++ p.2.summary ++ " (" ++
                localeDateZhTW (isoDatePart
                  ((jsOrStr p.2.start.dateTime p.2.start.date).getD "")) ++ ")\n")) ++
            "\n請問您想要刪除哪一個？ (可以回覆數字，例如 '1, 3'、'全部' 或 '取消')"
      setUserStateM env (some (.waitingDeleteConfirmation foundEvents))
      pure response

/-- The `switch (intent.action)` dispatch of the fresh-request path. -/
def freshDispatch (env : Env) (user : UserCtx) (intent : Intent) : M String := do
  match intent with
  | .planComplexTask plan objectiveTitle =>
    if truthy objectiveTitle then
      let t := objectiveTitle.getD ""
      let objective ← liftExc (env.findObjectiveByTitle user.userId t)
      match objective with
      | some o =>
        let plan' := plan.map (fun item => { item with objectiveId := some o.objective_id })
        setUserStateM env (some (.waitingConfirmation plan'))
        pure (formatPlanForConfirmation plan' true)
      | none =>
        pure ("🤔 找不到名為「" ++ t ++ "」的學習目標，要先建立一個嗎？")
    else do
      setUserStateM env (some (.waitingConfirmation plan))
      pure (formatPlanForConfirmation plan true)
  | .listEvents timeRange => handleListEventsM env timeRange
  | .createEvent params => handleCreateEventM env params
  | .clarifyOrReject response => pure (response.getD "")
  | .deleteEvent query => handleDeleteRequestM env query
  | .createLearningObjective title dueDate =>
    if !truthy title then
      pure "🤔 請告訴我您的學習目標是什麼喔！"
    else do
      let newObjective ← liftExc
        (env.createLearningObjective user.userId (title.getD "")
          (if truthy dueDate then dueDate else none))
      let base := "✅ 已為您建立新的學習目標：\n\n🎯 " ++ newObjective.title
      let withDue :=
        if truthy newObjective.due_date then
          base ++ "\n- 截止日期: " ++ newObjective.due_date.getD ""
        else base
      pure (withDue ++ "\n\n接下來，您可以說：「幫我規劃『" ++ newObjective.title ++
        "』」，來為這個目標安排具體行程。")
  | .planForObjective objectiveTitle =>
    let objective ← liftExc (env.findObjectiveByTitle user.userId objectiveTitle)
    match objective with
    | none =>
      pure ("🤔 找不到名為「" ++ objectiveTitle ++ "」的學習目標，要先建立一個嗎？")
    | some o =>
      let planItems := env.generatePlanForObjective o.title
      let plan' := planItems.map (fun item => { item with objectiveId := some o.objective_id })
      setUserStateM env (some (.waitingConfirmation plan'))
      pure (formatPlanForConfirmation plan' true)
  | .planGenericTask plan =>
    setUserStateM env (some (.waitingConfirmation plan))
    pure (formatPlanForConfirmation plan true)
  | _ => pure "🤔 抱歉，我不太理解您的需求。您可以試試：「幫我規劃下週的讀書計畫」。"

/-- The fresh-request body inside the `try`: consult the oracle, then
dispatch on the resulting action. -/
def freshCore (env : Env) (user : UserCtx) (message : String) : M String := do
  let intent ← callUnderstand env message
  freshDispatch env user intent

/-- The fresh-request path with its top-level `try`/`catch`. -/
def freshRequest (env : Env) (user : UserCtx) (message : String) : M String :=
  catchWith (freshCore env user message) freshApology

/-- `CalendarHandler.handleMessage`: parse the persisted state
(`JSON.parse` raises on malformed input, outside any `try`), dispatch on
the state tag, fall through to the fresh-request path when the state is
absent or unrecognized (after a defensive reset in the latter case). -/
def handleMessage (env : Env) (user : UserCtx) (message : String) : M String :=
  match user.state_json with
  | some .malformed => throwM
  | none => freshRequest env user message
  | some (.ok s) =>
    match s with
    | .waitingConfirmation plan => waitingConfirmationBranch env plan message
    | .waitingDeleteConfirmation events => waitingDeleteBranch env events message
    | .waitingPlanCorrection draftPlan => planCorrectionBranch env draftPlan message
    | .waitingKnowledgeAction noteId => knowledgeActionBranch env user noteId message
    | .unknownTag => do
      setUserStateM env none
      freshRequest env user message

/-- Run a handler computation on the empty trace. -/
def runM {α : Type} (m : M α) : Except Unit α × Trace := m {}

/-! ## Background image flow -/

/-- `isPlanComplete`: every step carries a truthy `date` or `startTime`. -/
def isPlanComplete (plan : List PlanEvent) : Bool :=
  plan.all (fun e => truthy e.date || truthy e.startTime)

/-- The image-plan post-processing of `preparePushMessageFromIntent`:
keep steps with a truthy summary and a truthy `date` or `startTime`, then
keep only the first occurrence of each `(summary, date)` pair
(`index === self.findIndex(...)`). -/
def postProcessPlan (plan : List PlanEvent) : List PlanEvent :=
  let completeEvents :=
    plan.filter (fun e => !e.summary.isEmpty && (truthy e.date || truthy e.startTime))
  (completeEvents.enum.filter (fun p =>
      completeEvents.findIdx? (fun t => t.summary == p.2.summary && t.date == p.2.date) ==
        some p.1)).map (·.2)

/-- The reply of the unreachable no-complete-activity branch. -/
def cannotExtractReply : String := "🤔 抱歉，我從圖片中無法提取出任何完整的活動資訊。"

/-- `intent.params` of an image-derived `create_event`, reused as a plan
step (`plan = [intent.params]`). -/
def paramsAsPlanEvent (p : CreateParams) : PlanEvent :=
  { summary := p.summary.getD "", startTime := p.startTime }

/-- `preparePushMessageFromIntent`: post-process image-derived plans,
then dispatch.  A missing `params` object on `create_event` makes the
template renderer dereference `undefined` (a `TypeError`), modelled as a
raise. -/
def preparePushMessageFromIntent (env : Env) (user : UserCtx) (intent0 : Intent) :
    M String := do
  let intent : Intent :=
    match intent0 with
    | .planComplexTask plan ot => .planComplexTask (postProcessPlan plan) ot
    | i => i
  match intent with
  | .reconstructKnowledge source => do
    let newNoteId ← liftExc env.saveKnowledgeNote
    setUserStateM env (some (.waitingKnowledgeAction (some newNoteId)))
    let title := jsOrElse source "這份資料"
    pure ("✅ 分析完成！\n我已經整理好您關於「" ++ title ++
      "」的筆記了。\n\n接下來，您想做什麼呢？\n您可以試著說：\n• 「幫我生成心智圖、flashcard、摘要」\n• 「出幾題考考我」\n• 「將筆記歸檔到『[您的目標名稱]』」")
  | .planComplexTask plan _ =>
    if isPlanComplete plan then do
      setUserStateM env (some (.waitingConfirmation plan))
      pure (formatPlanForConfirmation plan true)
    else
      if plan.isEmpty then
        pure cannotExtractReply
      else do
        setUserStateM env (some (.waitingPlanCorrection (.planComplexTask plan none)))
        pure (formatIncompletePlanAsTemplate plan)
  | .createEvent paramsOpt =>
    match paramsOpt with
    | some p =>
      if truthy p.startTime then do
        setUserStateM env (some (.waitingConfirmation [paramsAsPlanEvent p]))
        pure (formatPlanForConfirmation [paramsAsPlanEvent p] true)
      else do
        setUserStateM env
          (some (.waitingPlanCorrection (.planComplexTask [paramsAsPlanEvent p] none)))
        pure (formatIncompletePlanAsTemplate [paramsAsPlanEvent p])
    | none => throwM
  | _ => pure "🤔 抱歉，我從圖片中看不出可以怎麽協助您。"

/-- The apology pushed when the background task fails. -/
def backgroundApology : String :=
  "😵 抱歉，AI 大腦在分析您的圖片時似乎遇到了一點困難，請稍後再試一次。"

/-- `processImageInBackground`: analyze, prepare, push; any raise is
caught and replaced by an apology push (when a push channel exists). -/
def processImageInBackground (env : Env) (user : UserCtx) : M Unit :=
  tryCatchUnit
    (do
      let intent := env.analyzeImageAndPlan
      let pushMessageText ← preparePushMessageFromIntent env user intent
      if env.hasLineHandler && !pushMessageText.isEmpty then
        pushMessageM env pushMessageText
      else pure ())
    (do
      if env.hasLineHandler then pushMessageM env backgroundApology
      else pure ())

/-! ## Auxiliary definitions used by the verification -/

/-- Two grouping maps that assign every key the same group and have the
same keys up to order. -/
def GroupEquiv (mA mB : List (String × List CalEvent)) : Prop :=
  (∀ k, lookupGroup mA k = lookupGroup mB k) ∧
  (mA.map Prod.fst).Perm (mB.map Prod.fst)

/-- The waiting states whose branches always clear or replace the state
before replying (the knowledge-action branch has a reply path that does
not). -/
def simpleWaiting : UserState → Bool
  | .waitingConfirmation _ => true
  | .waitingDeleteConfirmation _ => true
  | .waitingPlanCorrection _ => true
  | _ => false

/-- The candidates a deletion choice selects (the branch arms of the
`waiting_delete_confirmation` loop). -/
def selectedCandidates (sel : DeletionChoice) (C : List CalEvent) : List CalEvent :=
  match sel with
  | .all => C
  | .indices is => is.filterMap (fun i => C.get? i)
  | .noneSel => []

/-- A computation that never consults `understandAndPlan`. -/
def PreservesUnderstand {α : Type} (m : M α) : Prop :=
  ∀ t : Trace, (m t).2.understandCalls = t.understandCalls

/-- A computation that never pushes to the user. -/
def PreservesPushes {α : Type} (m : M α) : Prop :=
  ∀ t : Trace, (m t).2.pushes = t.pushes

/-- A concrete environment for witnesses and counterexamples: the oracle
replies with fixed fallback values and every store call succeeds. -/
def envStub : Env where
  understandAndPlan := fun _ => .other
  modifyPlan := fun _ _ => .other
  parseDeletionChoice := fun _ _ => .noneSel
  mergePlanWithCorrection := fun _ _ => .err
  processKnowledge := fun _ _ => "done"
  generatePlanForObjective := fun _ => []
  analyzeImageAndPlan := .other

/-! ### Scheduling lemmas -/

theorem bind_apply {α β : Type} (m : M α) (f : α → M β) (t : Trace) :
    (m >>= f) t =
      match m t with
      | (.ok a, t') => f a t'
      | (.error e, t') => (.error e, t') := rfl

theorem pure_apply {α : Type} (a : α) (t : Trace) : (pure a : M α) t = (.ok a, t) := rfl

/-! ### String facts -/

theorem append_ne_empty_left (a b : String) (h : a ≠ "") : a ++ b ≠ "" := by
  intro hc
  apply h
  have hd : a.data ++ b.data = [] := by
    have h' := congrArg String.data hc
    rwa [String.data_append] at h'
  have ha : a.data = [] := (List.append_eq_nil.mp hd).1
  cases a with
  | mk d => simp at ha; rw [ha]

theorem append_ne_empty_right (a b : String) (h : b ≠ "") : a ++ b ≠ "" := by
  intro hc
  apply h
  have hd : a.data ++ b.data = [] := by
    have h' := congrArg String.data hc
    rwa [String.data_append] at h'
  have hb : b.data = [] := (List.append_eq_nil.mp hd).2
  cases b with
  | mk d => simp at hb; rw [hb]

theorem ne_empty_of_isEmpty_false (s : String) (h : s.isEmpty = false) : s ≠ "" := by
  intro hc
  rw [hc] at h
  exact absurd h (by decide)

theorem isEmpty_false_of_ne (s : String) (h : s ≠ "") : s.isEmpty = false := by
  cases he : s.isEmpty
  · rfl
  · exact absurd ((String.isEmpty_iff s).mp he) h

theorem jsOrElse_ne_empty (o : Option String) (fb : String) (h : fb ≠ "") :
    jsOrElse o fb ≠ "" := by
  unfold jsOrElse
  cases o with
  | none => exact h
  | some s =>
    cases hs : s.isEmpty
    · simpa [hs] using ne_empty_of_isEmpty_false s hs
    · simpa [hs] using h

theorem formatPlanForConfirmation_ne_empty (plan : List PlanEvent) (sg : Bool) :
    formatPlanForConfirmation plan sg ≠ "" := by
  unfold formatPlanForConfirmation
  exact append_ne_empty_right _ _ (by decide)

theorem formatIncompletePlanAsTemplate_ne_empty (plan : List PlanEvent) :
    formatIncompletePlanAsTemplate plan ≠ "" := by
  unfold formatIncompletePlanAsTemplate
  exact append_ne_empty_right _ _ (by decide)

theorem createPlanReply_ne_empty (createOk : Nat → Bool) (today : Nat)
    (plan : List PlanEvent) : (handleCreatePlan createOk today plan).reply ≠ "" := by
  unfold handleCreatePlan
  dsimp only
  split
  · unfold createPlanSuccessReply
    exact append_ne_empty_left _ _ (append_ne_empty_left _ _ (by decide))
  · decide

/-! ### The fresh-request path always consults the oracle exactly once -/

theorem preservesUnderstand_pure {α : Type} (a : α) : PreservesUnderstand (pure a : M α) :=
  fun _ => rfl

theorem preservesUnderstand_bind {α β : Type} {m : M α} {f : α → M β}
    (hm : PreservesUnderstand m) (hf : ∀ a, PreservesUnderstand (f a)) :
    PreservesUnderstand (m >>= f) := by
  intro t
  rw [bind_apply]
  rcases hmt : m t with ⟨r, t'⟩
  have hm' : t'.understandCalls = t.understandCalls := by
    have := hm t; rwa [hmt] at this
  cases r
  · simpa using hm'
  · dsimp only
    rw [hf _ t', hm']

theorem preservesUnderstand_catchWith {m : M String} {fb : String}
    (hm : PreservesUnderstand m) : PreservesUnderstand (catchWith m fb) := by
  intro t
  unfold catchWith
  rcases hmt : m t with ⟨r, t'⟩
  have hm' : t'.understandCalls = t.understandCalls := by
    have := hm t; rwa [hmt] at this
  cases r <;> simpa using hm'

theorem preservesUnderstand_liftExc {α : Type} (e : Except Unit α) :
    PreservesUnderstand (liftExc e) := fun _ => rfl

theorem preservesUnderstand_throwM {α : Type} : PreservesUnderstand (throwM : M α) :=
  fun _ => rfl

theorem preservesUnderstand_setUserStateM (env : Env) (s : Option UserState) :
    PreservesUnderstand (setUserStateM env s) := by
  intro t; unfold setUserStateM; split <;> rfl

theorem preservesUnderstand_deleteEventByIdM (env : Env) (id : String) :
    PreservesUnderstand (deleteEventByIdM env id) := by
  intro t; unfold deleteEventByIdM; split <;> rfl

theorem preservesUnderstand_linkNoteToObjectiveM (env : Env) (n o : Nat) :
    PreservesUnderstand (linkNoteToObjectiveM env n o) := by
  intro t; unfold linkNoteToObjectiveM; split <;> rfl

theorem preservesUnderstand_handleCreatePlanM (env : Env) (plan : List PlanEvent) :
    PreservesUnderstand (handleCreatePlanM env plan) := fun _ => rfl

theorem preservesUnderstand_pushMessageM (env : Env) (s : String) :
    PreservesUnderstand (pushMessageM env s) := by
  intro t; unfold pushMessageM; split <;> rfl

theorem preservesUnderstand_ite {α : Type} (c : Prop) [Decidable c] {m₁ m₂ : M α}
    (h₁ : PreservesUnderstand m₁) (h₂ : PreservesUnderstand m₂) :
    PreservesUnderstand (if c then m₁ else m₂) := by
  split <;> assumption

theorem preservesUnderstand_handleListEventsM (env : Env) (tr : Option String) :
    PreservesUnderstand (handleListEventsM env tr) := by
  unfold handleListEventsM
  exact preservesUnderstand_catchWith
    (preservesUnderstand_bind (preservesUnderstand_liftExc _)
      (fun a => preservesUnderstand_pure _))

theorem preservesUnderstand_handleCreateEventM (env : Env) (params : Option CreateParams) :
    PreservesUnderstand (handleCreateEventM env params) := by
  unfold handleCreateEventM
  apply preservesUnderstand_catchWith
  match params with
  | none => exact preservesUnderstand_pure _
  | some p =>
    apply preservesUnderstand_ite
    · exact preservesUnderstand_pure _
    · apply preservesUnderstand_ite
      · exact preservesUnderstand_pure _
      · exact preservesUnderstand_throwM

theorem preservesUnderstand_handleDeleteRequestM (env : Env) (query : Option String) :
    PreservesUnderstand (handleDeleteRequestM env query) := by
  unfold handleDeleteRequestM
  apply preservesUnderstand_ite
  · exact preservesUnderstand_pure _
  · apply preservesUnderstand_bind (preservesUnderstand_liftExc _)
    intro found
    apply preservesUnderstand_ite
    · exact preservesUnderstand_pure _
    · exact preservesUnderstand_bind (preservesUnderstand_setUserStateM env _)
        (fun _ => preservesUnderstand_pure _)

theorem preservesUnderstand_freshDispatch (env : Env) (user : UserCtx) (intent : Intent) :
    PreservesUnderstand (freshDispatch env user intent) := by
  cases intent with
  | planComplexTask plan ot =>
    unfold freshDispatch
    apply preservesUnderstand_ite
    · apply preservesUnderstand_bind (preservesUnderstand_liftExc _)
      intro obj
      match obj with
      | some o =>
        exact preservesUnderstand_bind (preservesUnderstand_setUserStateM env _)
          (fun _ => preservesUnderstand_pure _)
      | none => exact preservesUnderstand_pure _
    · exact preservesUnderstand_bind (preservesUnderstand_setUserStateM env _)
        (fun _ => preservesUnderstand_pure _)
  | planGenericTask plan =>
    unfold freshDispatch
    exact preservesUnderstand_bind (preservesUnderstand_setUserStateM env _)
      (fun _ => preservesUnderstand_pure _)
  | planForObjective ot =>
    unfold freshDispatch
    apply preservesUnderstand_bind (preservesUnderstand_liftExc _)
    intro obj
    match obj with
    | some o =>
      exact preservesUnderstand_bind (preservesUnderstand_setUserStateM env _)
        (fun _ => preservesUnderstand_pure _)
    | none => exact preservesUnderstand_pure _
  | listEvents tr => exact preservesUnderstand_handleListEventsM env tr
  | createEvent params => exact preservesUnderstand_handleCreateEventM env params
  | clarifyOrReject r => exact preservesUnderstand_pure _
  | deleteEvent q => exact preservesUnderstand_handleDeleteRequestM env q
  | createLearningObjective title dueDate =>
    unfold freshDispatch
    apply preservesUnderstand_ite
    · exact preservesUnderstand_pure _
    · exact preservesUnderstand_bind (preservesUnderstand_liftExc _)
        (fun _ => preservesUnderstand_pure _)
  | linkNoteToObjective ot => exact preservesUnderstand_pure _
  | reconstructKnowledge s => exact preservesUnderstand_pure _
  | other => exact preservesUnderstand_pure _

/-- The fresh-request path consults `understandAndPlan` exactly once, as
its first action. -/
theorem understandCalls_freshRequest (env : Env) (user : UserCtx) (msg : String)
    (t : Trace) :
    ((freshRequest env user msg) t).2.understandCalls = t.understandCalls ++ [msg] := by
  unfold freshRequest catchWith
  have hcore : ∀ t' : Trace,
      ((freshCore env user msg) t').2.understandCalls = t'.understandCalls ++ [msg] := by
    intro t'
    unfold freshCore
    rw [bind_apply]
    have hcall : (callUnderstand env msg) t' =
        (.ok (env.understandAndPlan msg),
          { t' with understandCalls := t'.understandCalls ++ [msg] }) := rfl
    rw [hcall]
    exact preservesUnderstand_freshDispatch env user _ _
  rcases hc : freshCore env user msg t with ⟨r, t'⟩
  have := hcore t
  rw [hc] at this
  cases r <;> simpa using this

theorem skipWeekend_eq (d : Nat) :
    skipWeekend d =
      if (d + 4) % 7 = 6 then d + 2 else if (d + 4) % 7 = 0 then d + 1 else d := by
  have h7 : (d + 4) % 7 = 0 ∨ (d + 4) % 7 = 1 ∨ (d + 4) % 7 = 2 ∨ (d + 4) % 7 = 3 ∨
      (d + 4) % 7 = 4 ∨ (d + 4) % 7 = 5 ∨ (d + 4) % 7 = 6 := by omega
  rcases h7 with h | h | h | h | h | h | h
  · have h1 : (d + 1 + 4) % 7 = 1 := by omega
    simp [skipWeekend, skipWeekendFuel, getDay, h, h1]
  · simp [skipWeekend, skipWeekendFuel, getDay, h]
  · simp [skipWeekend, skipWeekendFuel, getDay, h]
  · simp [skipWeekend, skipWeekendFuel, getDay, h]
  · simp [skipWeekend, skipWeekendFuel, getDay, h]
  · simp [skipWeekend, skipWeekendFuel, getDay, h]
  · have h1 : (d + 1 + 4) % 7 = 0 := by omega
    have h2 : (d + 2 + 4) % 7 = 1 := by omega
    simp [skipWeekend, skipWeekendFuel, getDay, h, h1, h2]

theorem skipWeekend_ge (d : Nat) : d ≤ skipWeekend d := by
  rw [skipWeekend_eq]; split <;> [omega; skip]; split <;> omega

theorem skipWeekend_le (d : Nat) : skipWeekend d ≤ d + 2 := by
  rw [skipWeekend_eq]; split <;> [omega; skip]; split <;> omega

theorem skipWeekend_weekday (d : Nat) :
    getDay (skipWeekend d) ≠ 0 ∧ getDay (skipWeekend d) ≠ 6 := by
  rw [skipWeekend_eq]
  unfold getDay
  split
  · constructor <;> omega
  · split
    · constructor <;> omega
    · constructor <;> omega

/-- On a fully undated plan every assigned start is 09:00 on a weekday at
or after the cursor. -/
theorem runPlan_undated_start (createOk : Nat → Bool) :
    ∀ (plan : List PlanEvent) (idx cursor : Nat),
      (∀ e ∈ plan, truthy e.date = false ∧ truthy e.startTime = false) →
      ∀ s ∈ (runPlan createOk idx cursor plan).map (·.startMin),
        s % 1440 = 540 ∧ cursor ≤ s / 1440 ∧
        getDay (s / 1440) ≠ 0 ∧ getDay (s / 1440) ≠ 6 := by
  intro plan
  induction plan with
  | nil => intro idx cursor _ s hs; simp [runPlan] at hs
  | cons item rest ih =>
    intro idx cursor hund s hs
    have hitem := hund item (List.mem_cons_self _ _)
    have hrest : ∀ e ∈ rest, truthy e.date = false ∧ truthy e.startTime = false :=
      fun e he => hund e (List.mem_cons_of_mem _ he)
    rw [runPlan] at hs
    simp only [stepStart, hitem.1, hitem.2, Bool.false_eq_true, if_false,
      List.map_cons, List.mem_cons] at hs
    rcases hs with hs | hs
    · subst hs
      have hmod : (skipWeekend cursor * 1440 + 540) % 1440 = 540 := by omega
      have hdiv : (skipWeekend cursor * 1440 + 540) / 1440 = skipWeekend cursor := by omega
      refine ⟨hmod, ?_, ?_, ?_⟩ <;> rw [hdiv]
      · exact skipWeekend_ge cursor
      · exact (skipWeekend_weekday cursor).1
      · exact (skipWeekend_weekday cursor).2
    · have := ih (idx + 1) (skipWeekend cursor + 1) hrest s (by simpa using hs)
      exact ⟨this.1, le_trans (le_trans (skipWeekend_ge cursor) (Nat.le_succ _)) this.2.1,
        this.2.2⟩

/-- On a fully undated plan the assigned starts strictly increase in list
order. -/
theorem runPlan_undated_increasing (createOk : Nat → Bool) :
    ∀ (plan : List PlanEvent) (idx cursor : Nat),
      (∀ e ∈ plan, truthy e.date = false ∧ truthy e.startTime = false) →
      List.Pairwise (· < ·) ((runPlan createOk idx cursor plan).map (·.startMin)) := by
  intro plan
  induction plan with
  | nil => intro idx cursor _; simp [runPlan]
  | cons item rest ih =>
    intro idx cursor hund
    have hitem := hund item (List.mem_cons_self _ _)
    have hrest : ∀ e ∈ rest, truthy e.date = false ∧ truthy e.startTime = false :=
      fun e he => hund e (List.mem_cons_of_mem _ he)
    rw [runPlan]
    simp only [stepStart, hitem.1, hitem.2, Bool.false_eq_true, if_false, List.map_cons]
    refine List.Pairwise.cons ?_ (ih (idx + 1) (skipWeekend cursor + 1) hrest)
    intro s hs
    have := runPlan_undated_start createOk rest (idx + 1) (skipWeekend cursor + 1) hrest s hs
    have hs' : s = (s / 1440) * 1440 + 540 := by omega
    have : skipWeekend cursor + 1 ≤ s / 1440 := this.2.1
    omega

/-- A commit attempts every step: one outcome per plan step. -/
theorem runPlan_length (createOk : Nat → Bool) :
    ∀ (plan : List PlanEvent) (idx cursor : Nat),
      (runPlan createOk idx cursor plan).length = plan.length := by
  intro plan
  induction plan with
  | nil => intro idx cursor; simp [runPlan]
  | cons item rest ih => intro idx cursor; rw [runPlan]; simp [ih]

/-! ### Grouping lemmas for the response formatter -/

theorem lookupGroup_addToGroup (m : List (String × List CalEvent)) (k : String)
    (e : CalEvent) (k' : String) :
    lookupGroup (addToGroup m k e) k' =
      if k' = k then some (((lookupGroup m k).getD []) ++ [e])
      else lookupGroup m k' := by
  induction m with
  | nil =>
    by_cases h : k' = k
    · subst h; simp [addToGroup, lookupGroup]
    · simp [addToGroup, lookupGroup, h, Ne.symm h]
  | cons p rest ih =>
    obtain ⟨k₀, es⟩ := p
    by_cases h0 : k₀ = k
    · subst h0
      by_cases h : k' = k₀
      · subst h; simp [addToGroup, lookupGroup]
      · simp [addToGroup, lookupGroup, h, Ne.symm h]
    · by_cases h : k' = k
      · subst h
        have hk : ¬ (k₀ = k') := h0
        simp [addToGroup, lookupGroup, h0, hk, ih]
      · by_cases h2 : k₀ = k'
        · subst h2
          simp [addToGroup, lookupGroup, h0, h]
        · simp [addToGroup, lookupGroup, h0, h2, ih, h]

theorem keys_addToGroup (m : List (String × List CalEvent)) (k : String) (e : CalEvent) :
    (addToGroup m k e).map Prod.fst =
      if (lookupGroup m k).isSome then m.map Prod.fst else m.map Prod.fst ++ [k] := by
  induction m with
  | nil => simp [addToGroup, lookupGroup]
  | cons p rest ih =>
    obtain ⟨k₀, es⟩ := p
    by_cases h0 : k₀ = k
    · subst h0; simp [addToGroup, lookupGroup]
    · simp only [addToGroup, lookupGroup, h0, if_false, List.map_cons, ih]
      by_cases hs : (lookupGroup rest k).isSome <;> simp [hs]

theorem groupEquiv_addToGroup {mA mB : List (String × List CalEvent)}
    (h : GroupEquiv mA mB) (k : String) (e : CalEvent) :
    GroupEquiv (addToGroup mA k e) (addToGroup mB k e) := by
  constructor
  · intro k'
    rw [lookupGroup_addToGroup, lookupGroup_addToGroup, h.1 k, h.1 k']
  · rw [keys_addToGroup, keys_addToGroup, h.1 k]
    by_cases hs : (lookupGroup mB k).isSome
    · simpa [hs] using h.2
    · simpa [hs] using h.2.append_right [k]

theorem groupEquiv_swap (m : List (String × List CalEvent)) (k1 k2 : String)
    (hne : k1 ≠ k2) (e1 e2 : CalEvent) :
    GroupEquiv (addToGroup (addToGroup m k1 e1) k2 e2)
      (addToGroup (addToGroup m k2 e2) k1 e1) := by
  constructor
  · intro k'
    rw [lookupGroup_addToGroup, lookupGroup_addToGroup, lookupGroup_addToGroup,
      lookupGroup_addToGroup, lookupGroup_addToGroup, lookupGroup_addToGroup]
    by_cases h2 : k' = k2
    · subst h2
      simp [hne, Ne.symm hne]
    · by_cases h1 : k' = k1 <;> simp [h1, h2, hne, Ne.symm hne]
  · rw [keys_addToGroup, keys_addToGroup, keys_addToGroup, keys_addToGroup,
      lookupGroup_addToGroup, lookupGroup_addToGroup]
    simp only [Ne.symm hne, hne, if_false]
    by_cases hs1 : (lookupGroup m k1).isSome <;>
      by_cases hs2 : (lookupGroup m k2).isSome <;>
        simp [hs1, hs2]
    exact (List.Perm.swap k2 k1 []).append_left (m.map Prod.fst)

theorem groupEquiv_groupStep {mA mB : List (String × List CalEvent)}
    (h : GroupEquiv mA mB) (e : CalEvent) :
    GroupEquiv (groupStep mA e) (groupStep mB e) := by
  unfold groupStep
  cases hk : startKey e
  · exact h
  · exact groupEquiv_addToGroup h _ _

theorem groupEquiv_foldl (l : List CalEvent) :
    ∀ {mA mB : List (String × List CalEvent)}, GroupEquiv mA mB →
      GroupEquiv (l.foldl groupStep mA) (l.foldl groupStep mB) := by
  induction l with
  | nil => intro mA mB h; exact h
  | cons e rest ih =>
    intro mA mB h
    exact ih (groupEquiv_groupStep h e)

theorem groupEquiv_eq_of_singleton {mA mB : List (String × List CalEvent)}
    (h : GroupEquiv mA mB) (hA : mA.length = 1) : mA = mB := by
  obtain ⟨a, ha⟩ := List.length_eq_one.mp hA
  have hBlen : mB.length = 1 := by
    have := h.2.length_eq
    simpa [ha] using this.symm
  obtain ⟨b, hb⟩ := List.length_eq_one.mp hBlen
  obtain ⟨ka, esa⟩ := a
  obtain ⟨kb, esb⟩ := b
  subst ha hb
  have hkeys : ka = kb := by
    have h' : [ka].Perm [kb] := by simpa using h.2
    have hm : ka ∈ [kb] := h'.mem_iff.mp (by simp)
    simpa using hm
  subst hkeys
  have := h.1 ka
  simp [lookupGroup] at this
  simp [this]

theorem groupEquiv_renderGrouped (n : Nat) {mA mB : List (String × List CalEvent)}
    (h : GroupEquiv mA mB) : renderGrouped n mA = renderGrouped n mB := by
  have hlen : mA.length = mB.length := by
    have := h.2.length_eq
    simpa using this
  by_cases h1 : mA.length = 1
  · rw [groupEquiv_eq_of_singleton h h1]
  · unfold renderGrouped
    have h1' : (mA.length == 1) = false := by simpa using h1
    have h1B : (mB.length == 1) = false := by rw [← hlen]; exact h1'
    rw [h1', h1B]
    simp only [Bool.false_eq_true, if_false]
    have hsort : List.insertionSort (· ≤ ·) (mA.map Prod.fst) =
        List.insertionSort (· ≤ ·) (mB.map Prod.fst) := by
      refine List.eq_of_perm_of_sorted ?_ (List.sorted_insertionSort _ _)
        (List.sorted_insertionSort _ _)
      exact ((List.perm_insertionSort _ _).trans h.2).trans
        (List.perm_insertionSort _ _).symm
    rw [hsort]
    have hsec : multiDaySection mA = multiDaySection mB := by
      funext dateKey
      unfold multiDaySection
      rw [h.1 dateKey]
    rw [hsec]

/-- C4: committing a plan whose steps carry no explicit date or start
time assigns the steps pairwise-distinct, strictly increasing start
instants in list order, all at 09:00 of a day that is neither Saturday
nor Sunday and no earlier than tomorrow; a step with an explicit `date`
or `startTime` uses its own value and leaves the scheduling cursor
unchanged. -/
theorem handleCreatePlan_undated_scheduling (createOk : Nat → Bool) (today : Nat)
    (plan : List PlanEvent)
    (h : ∀ e ∈ plan, truthy e.date = false ∧ truthy e.startTime = false) :
    ((handleCreatePlan createOk today plan).steps.map (·.startMin)).length = plan.length ∧
    List.Pairwise (· < ·) ((handleCreatePlan createOk today plan).steps.map (·.startMin)) ∧
    (∀ s ∈ (handleCreatePlan createOk today plan).steps.map (·.startMin),
      s % 1440 = 540 ∧ (today + 1) * 1440 + 540 ≤ s ∧
      getDay (s / 1440) ≠ 0 ∧ getDay (s / 1440) ≠ 6) ∧
    (∀ cursor item, truthy item.date = true →
      stepStart cursor item = (parseDateDays (item.date.getD "") * 1440 + 540, cursor)) ∧
    (∀ cursor item, truthy item.date = false → truthy item.startTime = true →
      stepStart cursor item = (parseDateTimeMinutes (item.startTime.getD ""), cursor)) := by
  have hsteps : (handleCreatePlan createOk today plan).steps =
      runPlan createOk 0 (today + 1) plan := rfl
  refine ⟨?_, ?_, ?_, ?_, ?_⟩
  · rw [hsteps, List.length_map, runPlan_length]
  · rw [hsteps]; exact runPlan_undated_increasing createOk plan 0 (today + 1) h
  · rw [hsteps]
    intro s hs
    have := runPlan_undated_start createOk plan 0 (today + 1) h s hs
    refine ⟨this.1, ?_, this.2.2⟩
    have h1 : today + 1 ≤ s / 1440 := this.2.1
    have h2 : s % 1440 = 540 := this.1
    omega
  · intro cursor item hd; simp [stepStart, hd]
  · intro cursor item hd hst; simp [stepStart, hd, hst]

/-- Witness for C4 at a concrete three-step undated plan. -/
theorem handleCreatePlan_undated_scheduling_witness :
    (∀ e ∈ ([{ summary := "a" }, { summary := "b" }, { summary := "c" }] : List PlanEvent),
      truthy e.date = false ∧ truthy e.startTime = false) ∧
    (((handleCreatePlan (fun _ => true) 20300
        [{ summary := "a" }, { summary := "b" }, { summary := "c" }]).steps.map
          (·.startMin)).length =
      ([{ summary := "a" }, { summary := "b" }, { summary := "c" }] : List PlanEvent).length ∧
    List.Pairwise (· < ·) ((handleCreatePlan (fun _ => true) 20300
        [{ summary := "a" }, { summary := "b" }, { summary := "c" }]).steps.map (·.startMin)) ∧
    (∀ s ∈ (handleCreatePlan (fun _ => true) 20300
        [{ summary := "a" }, { summary := "b" }, { summary := "c" }]).steps.map (·.startMin),
      s % 1440 = 540 ∧ (20300 + 1) * 1440 + 540 ≤ s ∧
      getDay (s / 1440) ≠ 0 ∧ getDay (s / 1440) ≠ 6) ∧
    (∀ cursor item, truthy item.date = true →
      stepStart cursor item = (parseDateDays (item.date.getD "") * 1440 + 540, cursor)) ∧
    (∀ cursor item, truthy item.date = false → truthy item.startTime = true →
      stepStart cursor item = (parseDateTimeMinutes (item.startTime.getD ""), cursor))) :=
  ⟨by decide, handleCreatePlan_undated_scheduling (fun _ => true) 20300 _ (by decide)⟩

/-- C5: a per-step event-store rejection is swallowed and counted as a
non-creation while the loop continues: on any 3-step plan whose second
creation is rejected, `createdCount` is 2 and steps 1 and 3 are created;
zero successes produces a reply distinct from the partial-success one. -/
theorem handleCreatePlan_partial_commit (today : Nat) (plan : List PlanEvent)
    (h3 : plan.length = 3) :
    (handleCreatePlan (fun i => decide (i ≠ 1)) today plan).createdCount = 2 ∧
    (handleCreatePlan (fun i => decide (i ≠ 1)) today plan).steps.map (·.created) =
      [true, false, true] ∧
    (handleCreatePlan (fun i => decide (i ≠ 1)) today plan).reply =
      createPlanSuccessReply 2 ∧
    (handleCreatePlan (fun _ => false) today plan).createdCount = 0 ∧
    (handleCreatePlan (fun _ => false) today plan).reply = createPlanFailureReply ∧
    createPlanSuccessReply 2 ≠ createPlanFailureReply := by
  obtain ⟨a, b, c, rfl⟩ := List.length_eq_three.mp h3
  refine ⟨?_, ?_, ?_, ?_, ?_, by decide⟩ <;>
    simp [handleCreatePlan, runPlan, createPlanSuccessReply]

/-- Witness for C5 at a concrete three-step plan. -/
theorem handleCreatePlan_partial_commit_witness :
    ([{ summary := "a" }, { summary := "b" }, { summary := "c" }] : List PlanEvent).length = 3 ∧
    ((handleCreatePlan (fun i => decide (i ≠ 1)) 20300
        [{ summary := "a" }, { summary := "b" }, { summary := "c" }]).createdCount = 2 ∧
    (handleCreatePlan (fun i => decide (i ≠ 1)) 20300
        [{ summary := "a" }, { summary := "b" }, { summary := "c" }]).steps.map (·.created) =
      [true, false, true] ∧
    (handleCreatePlan (fun i => decide (i ≠ 1)) 20300
        [{ summary := "a" }, { summary := "b" }, { summary := "c" }]).reply =
      createPlanSuccessReply 2 ∧
    (handleCreatePlan (fun _ => false) 20300
        [{ summary := "a" }, { summary := "b" }, { summary := "c" }]).createdCount = 0 ∧
    (handleCreatePlan (fun _ => false) 20300
        [{ summary := "a" }, { summary := "b" }, { summary := "c" }]).reply =
      createPlanFailureReply ∧
    createPlanSuccessReply 2 ≠ createPlanFailureReply) :=
  ⟨by decide, handleCreatePlan_partial_commit 20300 _ (by decide)⟩

/-- C9 counterexample: `formatEventsForLine` does not re-sort events
within a calendar date, so swapping two same-day events changes the
rendered text (their numbered lines trade places). -/
theorem formatEventsForLine_order_counterexample :
    formatEventsForLine
        [{ id := "1", summary := "A",
           start := { dateTime := some "2025-08-15T09:00:00" } },
         { id := "2", summary := "B",
           start := { dateTime := some "2025-08-15T10:00:00" } }] ≠
      formatEventsForLine
        [{ id := "2", summary := "B",
           start := { dateTime := some "2025-08-15T10:00:00" } },
         { id := "1", summary := "A",
           start := { dateTime := some "2025-08-15T09:00:00" } }] := by
  decide

/-- C9 (amended): `formatEventsForLine` is a pure deterministic function
whose date sections are re-sorted, so its output is unchanged by swapping
two adjacent events that fall on different calendar dates; only the
relative order of events sharing a date can affect the text. -/
theorem formatEventsForLine_swap_distinct_dates (l1 l2 : List CalEvent)
    (e1 e2 : CalEvent) (k1 k2 : String)
    (h1 : startKey e1 = some k1) (h2 : startKey e2 = some k2) (hne : k1 ≠ k2) :
    formatEventsForLine (l1 ++ e1 :: e2 :: l2) =
      formatEventsForLine (l1 ++ e2 :: e1 :: l2) := by
  unfold formatEventsForLine
  have hne1 : (l1 ++ e1 :: e2 :: l2).isEmpty = false := by simp
  have hne2 : (l1 ++ e2 :: e1 :: l2).isEmpty = false := by simp
  rw [hne1, hne2]
  simp only [Bool.false_eq_true, if_false]
  have hlen : (l1 ++ e1 :: e2 :: l2).length = (l1 ++ e2 :: e1 :: l2).length := by simp
  rw [hlen]
  apply groupEquiv_renderGrouped
  unfold groupByDate
  rw [List.foldl_append, List.foldl_append]
  simp only [List.foldl_cons]
  have hg1 : groupStep (l1.foldl groupStep []) e1 =
      addToGroup (l1.foldl groupStep []) k1 e1 := by simp [groupStep, h1]
  have hg2 : ∀ m, groupStep m e2 = addToGroup m k2 e2 := fun m => by simp [groupStep, h2]
  have hg1' : ∀ m, groupStep m e1 = addToGroup m k1 e1 := fun m => by simp [groupStep, h1]
  rw [hg1, hg2, hg2, hg1']
  exact groupEquiv_foldl l2 (groupEquiv_swap (l1.foldl groupStep []) k1 k2 hne e1 e2)

/-- Witness for the amended C9 at two concrete events on different
dates. -/
theorem formatEventsForLine_swap_distinct_dates_witness :
    startKey { id := "1", summary := "A",
               start := { dateTime := some "2025-08-15T09:00:00" } } = some "2025-08-15" ∧
    startKey { id := "2", summary := "B",
               start := { dateTime := some "2025-08-16T10:00:00" } } = some "2025-08-16" ∧
    ("2025-08-15" : String) ≠ "2025-08-16" ∧
    formatEventsForLine
        ([] ++ ({ id := "1", summary := "A",
                  start := { dateTime := some "2025-08-15T09:00:00" } } : CalEvent) ::
          ({ id := "2", summary := "B",
              start := { dateTime := some "2025-08-16T10:00:00" } } : CalEvent) :: []) =
      formatEventsForLine
        ([] ++ ({ id := "2", summary := "B",
                  start := { dateTime := some "2025-08-16T10:00:00" } } : CalEvent) ::
          ({ id := "1", summary := "A",
              start := { dateTime := some "2025-08-15T09:00:00" } } : CalEvent) :: []) :=
  ⟨by decide, by decide, by decide,
    formatEventsForLine_swap_distinct_dates [] [] _ _ "2025-08-15" "2025-08-16"
      (by decide) (by decide) (by decide)⟩

/-! ### Deletion-selection lemmas (C7) -/

theorem deleteAllM_run (env : Env) (hdel : env.deleteEventOk = true) :
    ∀ (evs : List CalEvent) (t : Trace),
      deleteAllM env evs t =
        (.ok (evs.length, evs.map (·.summary)),
          { t with deletedIds := t.deletedIds ++ evs.map (·.id) }) := by
  intro evs
  induction evs with
  | nil => intro t; simp [deleteAllM, pure_apply]
  | cons e rest ih =>
    intro t
    simp only [deleteAllM, bind_apply, deleteEventByIdM, hdel, if_true, ih, pure_apply,
      List.map_cons, List.length_cons, List.append_assoc, List.singleton_append]

theorem deleteIndicesM_run (env : Env) (hdel : env.deleteEventOk = true)
    (evs : List CalEvent) :
    ∀ (is : List Nat) (t : Trace),
      deleteIndicesM env evs is t =
        (.ok ((is.filterMap (fun i => evs.get? i)).length,
              (is.filterMap (fun i => evs.get? i)).map (·.summary)),
          { t with deletedIds :=
              t.deletedIds ++ (is.filterMap (fun i => evs.get? i)).map (·.id) }) := by
  intro is
  induction is with
  | nil => intro t; simp [deleteIndicesM, pure_apply]
  | cons i rest ih =>
    intro t
    cases hg : evs.get? i with
    | none => simp only [deleteIndicesM, hg, ih, List.filterMap_cons_none hg]
    | some ev =>
      have hfm : List.filterMap (fun j => evs.get? j) (i :: rest) =
          ev :: List.filterMap (fun j => evs.get? j) rest := by
        simp [List.filterMap_cons, ← List.get?_eq_getElem?, hg]
      simp only [deleteIndicesM, hg, bind_apply, deleteEventByIdM, hdel, if_true, ih,
        pure_apply, hfm, List.map_cons, List.length_cons,
        List.append_assoc, List.singleton_append]

/-- C7: in `waiting_delete_confirmation` with candidate list `C`, the
oracle's selection drives the deletions — `all` deletes every candidate,
an index list deletes exactly the candidates at those 0-based positions,
`none` deletes nothing — and the state is cleared in every case. -/
theorem handleMessage_deletion_selection (env : Env) (user : UserCtx) (msg : String)
    (C : List CalEvent)
    (hstate : user.state_json = some (.ok (.waitingDeleteConfirmation C)))
    (hdel : env.deleteEventOk = true) (hset : env.setUserStateOk = true) :
    (runM (handleMessage env user msg)).2.deletedIds =
      (selectedCandidates (env.parseDeletionChoice msg C.length) C).map (·.id) ∧
    (runM (handleMessage env user msg)).2.stateWrites = [none] ∧
    ∃ r, (runM (handleMessage env user msg)).1 = .ok r := by
  simp only [handleMessage, hstate]
  unfold runM waitingDeleteBranch
  cases hch : env.parseDeletionChoice msg C.length with
  | all =>
    simp only [hch, selectedCandidates, bind_apply, deleteAllM_run env hdel, setUserStateM,
      hset, if_true, pure_apply]
    split <;> exact ⟨by simp [pure_apply], by simp [pure_apply], ⟨_, rfl⟩⟩
  | indices is =>
    simp only [hch, selectedCandidates, bind_apply, deleteIndicesM_run env hdel,
      setUserStateM, hset, if_true, pure_apply]
    split <;> exact ⟨by simp [pure_apply], by simp [pure_apply], ⟨_, rfl⟩⟩
  | noneSel =>
    simp only [hch, selectedCandidates, bind_apply, pure_apply, setUserStateM, hset, if_true]
    split <;> exact ⟨by simp [pure_apply], by simp [pure_apply], ⟨_, rfl⟩⟩

/-- Witness for C7: three candidates, oracle selection `[0, 2]`. -/
theorem handleMessage_deletion_selection_witness :
    (runM (handleMessage { envStub with parseDeletionChoice := fun _ _ => .indices [0, 2] }
        { state_json := some (.ok (.waitingDeleteConfirmation
            [{ id := "e1", summary := "會議一" }, { id := "e2", summary := "會議二" },
              { id := "e3", summary := "會議三" }])) }
        "1 和 3")).2.deletedIds =
      (selectedCandidates
        (({ envStub with
              parseDeletionChoice := fun _ _ => .indices [0, 2] } : Env).parseDeletionChoice
          "1 和 3" 3)
        [{ id := "e1", summary := "會議一" }, { id := "e2", summary := "會議二" },
          { id := "e3", summary := "會議三" }]).map (·.id) ∧
    (runM (handleMessage { envStub with parseDeletionChoice := fun _ _ => .indices [0, 2] }
        { state_json := some (.ok (.waitingDeleteConfirmation
            [{ id := "e1", summary := "會議一" }, { id := "e2", summary := "會議二" },
              { id := "e3", summary := "會議三" }])) }
        "1 和 3")).2.stateWrites = [none] ∧
    ∃ r, (runM (handleMessage
        { envStub with parseDeletionChoice := fun _ _ => .indices [0, 2] }
        { state_json := some (.ok (.waitingDeleteConfirmation
            [{ id := "e1", summary := "會議一" }, { id := "e2", summary := "會議二" },
              { id := "e3", summary := "會議三" }])) }
        "1 和 3")).1 = .ok r :=
  handleMessage_deletion_selection _ _ "1 和 3" _ rfl rfl rfl

/-! ### Error propagation and state loading (C1, C6) -/

/-- C1 counterexample: in a waiting state the external calls are outside
the `try`/`catch`, so a failing event-store delete makes `handleMessage`
raise to its caller instead of degrading to an apologetic reply. -/
theorem handleMessage_exception_escapes_counterexample :
    (runM (handleMessage
        { envStub with parseDeletionChoice := fun _ _ => .all, deleteEventOk := false }
        { state_json := some (.ok (.waitingDeleteConfirmation
            [{ id := "e1", summary := "會議" }])) }
        "全部")).1 = Except.error () := rfl

/-- C1 (amended): only the fresh-request path (`Idle` state) is wrapped
in the top-level `try`/`catch`: there `handleMessage` always returns a
reply — the dispatch result, or the fixed apology exactly when the
dispatch raised.  Exceptions raised while parsing the persisted state or
inside the waiting-state branches propagate to the caller (see the
counterexample). -/
theorem handleMessage_idle_total (env : Env) (user : UserCtx) (msg : String)
    (h : user.state_json = none) :
    (runM (handleMessage env user msg)).1 =
      .ok (match (freshCore env user msg {}).1 with
           | .ok r => r
           | .error _ => freshApology) := by
  simp only [handleMessage, h]
  unfold runM freshRequest catchWith
  rcases hc : freshCore env user msg {} with ⟨r, t'⟩
  cases r <;> simp

/-- Witness for the amended C1 at a concrete idle user. -/
theorem handleMessage_idle_total_witness :
    ({} : UserCtx).state_json = none ∧
    (runM (handleMessage envStub {} "今天有什麼事")).1 =
      .ok (match (freshCore envStub {} "今天有什麼事" {}).1 with
           | .ok r => r
           | .error _ => freshApology) :=
  ⟨rfl, handleMessage_idle_total envStub {} "今天有什麼事" rfl⟩

/-- C6 counterexample: an unrecognized state tag does not end the
handling with the defensive reset — the message falls through to the
fresh-request path, so an Oracle consultation does occur. -/
theorem handleMessage_unknown_tag_counterexample :
    (runM (handleMessage { envStub with understandAndPlan := fun _ => .listEvents none }
        { state_json := some (.ok .unknownTag) } "hello")).2.understandCalls = ["hello"] ∧
    (runM (handleMessage { envStub with understandAndPlan := fun _ => .listEvents none }
        { state_json := some (.ok .unknownTag) } "hello")).2.stateWrites = [none] := by
  exact ⟨by decide, by decide⟩

/-- C6 (amended): an absent persisted state is handled as a fresh
request; an unparseable one makes `JSON.parse` raise out of
`handleMessage`; an unrecognized tag is defensively reset to `Idle` and
the message is then handled as a fresh request, whose first action is an
Oracle consultation. -/
theorem handleMessage_state_load (env : Env) (msg : String) :
    (∀ user : UserCtx, user.state_json = none →
      handleMessage env user msg = freshRequest env user msg) ∧
    (∀ (user : UserCtx) (t : Trace), user.state_json = some .malformed →
      handleMessage env user msg t = (.error (), t)) ∧
    (∀ user : UserCtx, user.state_json = some (.ok .unknownTag) →
      env.setUserStateOk = true →
      handleMessage env user msg {} =
        freshRequest env user msg { stateWrites := [none] }) ∧
    (∀ (user : UserCtx) (t : Trace),
      ((freshRequest env user msg) t).2.understandCalls = t.understandCalls ++ [msg]) := by
  refine ⟨?_, ?_, ?_, ?_⟩
  · intro user h; simp only [handleMessage, h]
  · intro user t h; simp only [handleMessage, h]; rfl
  · intro user h hset
    simp only [handleMessage, h, bind_apply, setUserStateM, hset, if_true, List.nil_append]
  · intro user t; exact understandCalls_freshRequest env user msg t

/-- Witness for the amended C6 at concrete users and a concrete message. -/
theorem handleMessage_state_load_witness :
    handleMessage envStub { state_json := none } "hi" =
      freshRequest envStub { state_json := none } "hi" ∧
    handleMessage envStub { state_json := some .malformed } "hi" {} = (.error (), {}) ∧
    handleMessage envStub { state_json := some (.ok .unknownTag) } "hi" {} =
      freshRequest envStub { state_json := some (.ok .unknownTag) } "hi"
        { stateWrites := [none] } ∧
    ((freshRequest envStub { state_json := none } "hi") {}).2.understandCalls =
      Trace.understandCalls {} ++ ["hi"] :=
  ⟨(handleMessage_state_load envStub "hi").1 _ rfl,
   (handleMessage_state_load envStub "hi").2.1 _ {} rfl,
   (handleMessage_state_load envStub "hi").2.2.1 _ rfl rfl,
   (handleMessage_state_load envStub "hi").2.2.2 _ {}⟩

/-! ### The confirmation branch (C2) -/

/-- C2 counterexample: the affirmative check is case-sensitive
(`includes` on the literal token list): the reply `"OK"` matches the
token set case-insensitively and is shorter than 5 characters, yet the
commit (`handleCreatePlan`) is not invoked — the reply is routed to the
modification branch instead. -/
theorem handleMessage_confirmation_case_counterexample :
    jsTrim "OK" = "OK" ∧
    jsToLowerCase "OK" = "ok" ∧
    pureConfirmTerms.contains "ok" = true ∧
    ("OK" : String).length < 5 ∧
    (runM (handleMessage envStub
        { state_json := some (.ok (.waitingConfirmation [{ summary := "讀書" }])) }
        "OK")).2.createPlanCalls = [] := by
  exact ⟨by decide, by decide, by decide, by decide, by decide⟩

/-- C2 (amended): when the trimmed reply matches one of the literal
affirmative tokens exactly — case-sensitively; the code's list is
好/可以/ok/沒問題/是的/同意/好啊/可以啊 — and is shorter than 5
characters, the state is cleared and the commit is invoked with exactly
the stored plan, whose reply is returned. -/
theorem handleMessage_confirmation_commit (env : Env) (user : UserCtx) (msg : String)
    (plan : List PlanEvent)
    (hstate : user.state_json = some (.ok (.waitingConfirmation plan)))
    (hterm : pureConfirmTerms.contains (jsTrim msg) = true)
    (hlen : (jsTrim msg).length < 5)
    (hset : env.setUserStateOk = true) :
    (runM (handleMessage env user msg)).2.stateWrites = [none] ∧
    (runM (handleMessage env user msg)).2.createPlanCalls = [plan] ∧
    (runM (handleMessage env user msg)).1 =
      .ok (handleCreatePlan env.createEventOk env.todayDay plan).reply := by
  have hcond : (pureConfirmTerms.contains (jsTrim msg) &&
      decide ((jsTrim msg).length < 5)) = true := by
    rw [hterm, decide_eq_true hlen]; rfl
  refine ⟨?_, ?_, ?_⟩ <;>
    · simp only [handleMessage, hstate]
      unfold runM waitingConfirmationBranch
      rw [if_pos hcond]
      simp [bind_apply, setUserStateM, hset, handleCreatePlanM]

/-- Witness for the amended C2: reply `"好"` on a stored one-step plan. -/
theorem handleMessage_confirmation_commit_witness :
    pureConfirmTerms.contains (jsTrim "好") = true ∧
    (jsTrim "好").length < 5 ∧
    ((runM (handleMessage envStub
        { state_json := some (.ok (.waitingConfirmation [{ summary := "讀書" }])) }
        "好")).2.stateWrites = [none] ∧
    (runM (handleMessage envStub
        { state_json := some (.ok (.waitingConfirmation [{ summary := "讀書" }])) }
        "好")).2.createPlanCalls = [[{ summary := "讀書" }]] ∧
    (runM (handleMessage envStub
        { state_json := some (.ok (.waitingConfirmation [{ summary := "讀書" }])) }
        "好")).1 =
      .ok (handleCreatePlan envStub.createEventOk envStub.todayDay
        [{ summary := "讀書" }]).reply) :=
  ⟨by decide, by decide,
    handleMessage_confirmation_commit envStub _ "好" _ rfl (by decide) (by decide) rfl⟩

/-! ### State-write discipline (C3) -/

/-- C3 counterexample: a read-only fresh request (here `list_events`)
completes with zero state writes, not exactly one; the reply is still
non-empty. -/
theorem handleMessage_zero_writes_counterexample :
    (runM (handleMessage { envStub with understandAndPlan := fun _ => .listEvents none }
        { state_json := none } "今天有什麼事")).2.stateWrites = [] ∧
    (runM (handleMessage { envStub with understandAndPlan := fun _ => .listEvents none }
        { state_json := none } "今天有什麼事")).1 =
      .ok "📅 太好了，這段時間內沒有任何安排！" :=
  ⟨by decide, rfl⟩

/-- C3 (amended): the waiting-confirmation, waiting-delete-confirmation
and waiting-plan-correction branches perform exactly one state write and
return a non-empty reply (when the stores succeed); fresh-request
branches may finish with zero writes (see the counterexample), and the
knowledge-action branch has a reply path that writes nothing. -/
theorem handleMessage_waiting_branches_single_write (env : Env) (user : UserCtx)
    (msg : String) (s : UserState)
    (hstate : user.state_json = some (.ok s)) (hsw : simpleWaiting s = true)
    (hset : env.setUserStateOk = true) (hdel : env.deleteEventOk = true) :
    (runM (handleMessage env user msg)).2.stateWrites.length = 1 ∧
    ∃ r, (runM (handleMessage env user msg)).1 = .ok r ∧ r ≠ "" := by
  cases s with
  | waitingConfirmation plan =>
    simp only [handleMessage, hstate]
    unfold runM waitingConfirmationBranch
    by_cases hc : (pureConfirmTerms.contains (jsTrim msg) &&
        decide ((jsTrim msg).length < 5)) = true
    · rw [if_pos hc]
      refine ⟨?_, (handleCreatePlan env.createEventOk env.todayDay plan).reply, ?_,
          createPlanReply_ne_empty _ _ _⟩ <;>
        simp [bind_apply, setUserStateM, hset, handleCreatePlanM]
    · rw [if_neg hc]
      by_cases hn : (negativeResponses.any fun resp =>
          jsIncludes (jsToLowerCase (jsTrim msg)) resp) = true
      · rw [if_pos hn]
        refine ⟨?_, "好的，已為您取消安排。", ?_, by decide⟩ <;>
          simp [bind_apply, setUserStateM, hset, pure_apply]
      · rw [if_neg hn]
        cases hm : env.modifyPlan plan msg
        next p ot =>
          refine ⟨?_, "好的，這是為您調整後的計畫，您覺得如何？\n\n" ++
              formatPlanForConfirmation p false, ?_,
              append_ne_empty_left _ _ (by decide)⟩ <;>
            simp [bind_apply, setUserStateM, hset, pure_apply]
        all_goals
          refine ⟨?_, jsOrElse (intentResponse (env.modifyPlan plan msg))
              "抱歉，我不太能理解您的修改。", ?_, jsOrElse_ne_empty _ _ (by decide)⟩ <;>
            simp [hm, intentResponse, bind_apply, setUserStateM, hset, pure_apply]
  | waitingDeleteConfirmation evs =>
    simp only [handleMessage, hstate]
    unfold runM waitingDeleteBranch
    cases hch : env.parseDeletionChoice msg evs.length with
    | all =>
      simp only [bind_apply, deleteAllM_run env hdel, setUserStateM, hset, if_true,
        pure_apply]
      split
      · exact ⟨by simp [pure_apply],
          "✅ 操作完成！已成功刪除 " ++ toString evs.length ++ " 個行程：\n- " ++
            String.intercalate "\n- " (evs.map (fun x => x.summary)),
          by simp [pure_apply],
          append_ne_empty_left _ _ (append_ne_empty_left _ _
            (append_ne_empty_left _ _ (by decide)))⟩
      · exact ⟨by simp [pure_apply], "好的，已取消刪除操作。", by simp [pure_apply], by decide⟩
    | indices is =>
      simp only [bind_apply, deleteIndicesM_run env hdel, setUserStateM, hset, if_true,
        pure_apply]
      split
      · exact ⟨by simp [pure_apply],
          "✅ 操作完成！已成功刪除 " ++
              toString (is.filterMap (fun i => evs.get? i)).length ++ " 個行程：\n- " ++
            String.intercalate "\n- "
              ((is.filterMap (fun i => evs.get? i)).map (fun x => x.summary)),
          by simp [pure_apply],
          append_ne_empty_left _ _ (append_ne_empty_left _ _
            (append_ne_empty_left _ _ (by decide)))⟩
      · exact ⟨by simp [pure_apply], "好的，已取消刪除操作。", by simp [pure_apply], by decide⟩
    | noneSel =>
      simp only [bind_apply, pure_apply, setUserStateM, hset, if_true]
      rw [if_neg (by omega)]
      exact ⟨by simp [pure_apply], "好的，已取消刪除操作。", by simp [pure_apply], by decide⟩
  | waitingPlanCorrection draft =>
    simp only [handleMessage, hstate]
    unfold runM planCorrectionBranch
    cases hm : env.mergePlanWithCorrection draft msg with
    | err =>
      refine ⟨?_, "抱歉，合併您的修正時發生錯誤，請再試一次。", ?_, by decide⟩ <;>
        simp [bind_apply, setUserStateM, hset, pure_apply]
    | ok p =>
      refine ⟨?_, "太好了！這是更新後的完整計畫，您看一下是否正確？\n\n" ++
          formatPlanForConfirmation p false, ?_, append_ne_empty_left _ _ (by decide)⟩ <;>
        simp [bind_apply, setUserStateM, hset, pure_apply]
  | waitingKnowledgeAction n => simp [simpleWaiting] at hsw
  | unknownTag => simp [simpleWaiting] at hsw

/-- Witness for the amended C3: delete-confirmation state, oracle answers
`none`. -/
theorem handleMessage_waiting_branches_single_write_witness :
    simpleWaiting (.waitingDeleteConfirmation [{ id := "e1", summary := "會議" }]) = true ∧
    ((runM (handleMessage envStub
        { state_json := some (.ok (.waitingDeleteConfirmation
            [{ id := "e1", summary := "會議" }])) }
        "取消")).2.stateWrites.length = 1 ∧
    ∃ r, (runM (handleMessage envStub
        { state_json := some (.ok (.waitingDeleteConfirmation
            [{ id := "e1", summary := "會議" }])) }
        "取消")).1 = .ok r ∧ r ≠ "") :=
  ⟨by decide,
    handleMessage_waiting_branches_single_write envStub _ "取消" _ rfl (by decide) rfl rfl⟩

/-! ### Background image flow (C8, C10) -/

theorem preservesPushes_pure {α : Type} (a : α) : PreservesPushes (pure a : M α) :=
  fun _ => rfl

theorem preservesPushes_throwM {α : Type} : PreservesPushes (throwM : M α) :=
  fun _ => rfl

theorem preservesPushes_liftExc {α : Type} (e : Except Unit α) :
    PreservesPushes (liftExc e) := fun _ => rfl

theorem preservesPushes_setUserStateM (env : Env) (s : Option UserState) :
    PreservesPushes (setUserStateM env s) := by
  intro t; unfold setUserStateM; split <;> rfl

theorem preservesPushes_bind {α β : Type} {m : M α} {f : α → M β}
    (hm : PreservesPushes m) (hf : ∀ a, PreservesPushes (f a)) :
    PreservesPushes (m >>= f) := by
  intro t
  rw [bind_apply]
  rcases hmt : m t with ⟨r, t'⟩
  have hm' : t'.pushes = t.pushes := by
    have := hm t; rwa [hmt] at this
  cases r
  · simpa using hm'
  · dsimp only
    rw [hf _ t', hm']

theorem preservesPushes_ite {α : Type} (c : Prop) [Decidable c] {m₁ m₂ : M α}
    (h₁ : PreservesPushes m₁) (h₂ : PreservesPushes m₂) :
    PreservesPushes (if c then m₁ else m₂) := by
  split <;> assumption

/-- `preparePushMessageFromIntent` never pushes itself: delivery happens
only in `processImageInBackground`. -/
theorem preservesPushes_preparePush (env : Env) (user : UserCtx) (intent : Intent) :
    PreservesPushes (preparePushMessageFromIntent env user intent) := by
  cases intent with
  | reconstructKnowledge source =>
    unfold preparePushMessageFromIntent
    exact preservesPushes_bind (preservesPushes_liftExc _)
      (fun _ => preservesPushes_bind (preservesPushes_setUserStateM env _)
        (fun _ => preservesPushes_pure _))
  | planComplexTask plan ot =>
    unfold preparePushMessageFromIntent
    apply preservesPushes_ite
    · exact preservesPushes_bind (preservesPushes_setUserStateM env _)
        (fun _ => preservesPushes_pure _)
    · apply preservesPushes_ite
      · exact preservesPushes_pure _
      · exact preservesPushes_bind (preservesPushes_setUserStateM env _)
          (fun _ => preservesPushes_pure _)
  | createEvent paramsOpt =>
    unfold preparePushMessageFromIntent
    match paramsOpt with
    | some p =>
      apply preservesPushes_ite
      · exact preservesPushes_bind (preservesPushes_setUserStateM env _)
          (fun _ => preservesPushes_pure _)
      · exact preservesPushes_bind (preservesPushes_setUserStateM env _)
          (fun _ => preservesPushes_pure _)
    | none => exact preservesPushes_throwM
  | planGenericTask p => exact preservesPushes_pure _
  | planForObjective p => exact preservesPushes_pure _
  | listEvents p => exact preservesPushes_pure _
  | clarifyOrReject p => exact preservesPushes_pure _
  | deleteEvent p => exact preservesPushes_pure _
  | createLearningObjective a b => exact preservesPushes_pure _
  | linkNoteToObjective a => exact preservesPushes_pure _
  | other => exact preservesPushes_pure _

/-- A successfully prepared push text is never empty. -/
theorem prepare_ok_ne_empty (env : Env) (user : UserCtx) (intent : Intent)
    (t t' : Trace) (r : String)
    (h : (preparePushMessageFromIntent env user intent) t = (.ok r, t')) : r ≠ "" := by
  cases intent with
  | reconstructKnowledge source =>
    unfold preparePushMessageFromIntent at h
    dsimp only at h
    simp only [bind_apply, liftExc] at h
    rcases hs : env.saveKnowledgeNote with e | n <;> rw [hs] at h <;> try dsimp only at h
    · exact absurd (congrArg Prod.fst h) (by simp)
    · unfold setUserStateM at h
      split at h <;> try dsimp only at h
      · rw [pure_apply] at h
        injection h with h1 h2
        injection h1 with h1
        rw [← h1]
        exact append_ne_empty_left _ _ (append_ne_empty_left _ _ (by decide))
      · exact absurd (congrArg Prod.fst h) (by simp)
  | planComplexTask plan ot =>
    unfold preparePushMessageFromIntent at h
    dsimp only at h
    split at h
    · simp only [bind_apply] at h
      unfold setUserStateM at h
      split at h <;> try dsimp only at h
      · rw [pure_apply] at h
        injection h with h1 h2
        injection h1 with h1
        rw [← h1]
        exact formatPlanForConfirmation_ne_empty _ _
      · exact absurd (congrArg Prod.fst h) (by simp)
    · split at h
      · rw [pure_apply] at h
        injection h with h1 h2
        injection h1 with h1
        rw [← h1]
        decide
      · simp only [bind_apply] at h
        unfold setUserStateM at h
        split at h <;> try dsimp only at h
        · rw [pure_apply] at h
          injection h with h1 h2
          injection h1 with h1
          rw [← h1]
          exact formatIncompletePlanAsTemplate_ne_empty _
        · exact absurd (congrArg Prod.fst h) (by simp)
  | createEvent paramsOpt =>
    unfold preparePushMessageFromIntent at h
    match paramsOpt with
    | some p =>
      dsimp only at h
      split at h <;>
        · simp only [bind_apply] at h
          unfold setUserStateM at h
          split at h <;> try dsimp only at h
          · rw [pure_apply] at h
            injection h with h1 h2
            injection h1 with h1
            rw [← h1]
            first
            | exact formatPlanForConfirmation_ne_empty _ _
            | exact formatIncompletePlanAsTemplate_ne_empty _
          · exact absurd (congrArg Prod.fst h) (by simp)
    | none =>
      dsimp only at h
      exact absurd (congrArg Prod.fst h) (by simp [throwM])
  | planGenericTask p =>
    unfold preparePushMessageFromIntent at h
    dsimp only at h
    rw [pure_apply] at h
    injection h with h1 h2
    injection h1 with h1
    rw [← h1]; decide
  | planForObjective p =>
    unfold preparePushMessageFromIntent at h
    dsimp only at h
    rw [pure_apply] at h
    injection h with h1 h2
    injection h1 with h1
    rw [← h1]; decide
  | listEvents p =>
    unfold preparePushMessageFromIntent at h
    dsimp only at h
    rw [pure_apply] at h
    injection h with h1 h2
    injection h1 with h1
    rw [← h1]; decide
  | clarifyOrReject p =>
    unfold preparePushMessageFromIntent at h
    dsimp only at h
    rw [pure_apply] at h
    injection h with h1 h2
    injection h1 with h1
    rw [← h1]; decide
  | deleteEvent p =>
    unfold preparePushMessageFromIntent at h
    dsimp only at h
    rw [pure_apply] at h
    injection h with h1 h2
    injection h1 with h1
    rw [← h1]; decide
  | createLearningObjective a b =>
    unfold preparePushMessageFromIntent at h
    dsimp only at h
    rw [pure_apply] at h
    injection h with h1 h2
    injection h1 with h1
    rw [← h1]; decide
  | linkNoteToObjective a =>
    unfold preparePushMessageFromIntent at h
    dsimp only at h
    rw [pure_apply] at h
    injection h with h1 h2
    injection h1 with h1
    rw [← h1]; decide
  | other =>
    unfold preparePushMessageFromIntent at h
    dsimp only at h
    rw [pure_apply] at h
    injection h with h1 h2
    injection h1 with h1
    rw [← h1]; decide

/-- C8: when a push channel is attached and the push succeeds, every run
of the background image task delivers exactly one push: the prepared
result text when analysis and preparation succeed, the fixed apology when
anything raised along the way. -/
theorem processImage_push_exactly_once (env : Env) (user : UserCtx)
    (hL : env.hasLineHandler = true) (hP : env.pushOk = true) :
    (runM (processImageInBackground env user)).2.pushes =
      [match (preparePushMessageFromIntent env user env.analyzeImageAndPlan {}).1 with
       | .ok txt => txt
       | .error _ => backgroundApology] ∧
    (runM (processImageInBackground env user)).1 = .ok () := by
  unfold runM processImageInBackground tryCatchUnit
  simp only [bind_apply]
  rcases hp : preparePushMessageFromIntent env user env.analyzeImageAndPlan {}
    with ⟨r, t'⟩
  have hpu : t'.pushes = [] := by
    have hq := preservesPushes_preparePush env user env.analyzeImageAndPlan {}
    rw [hp] at hq
    exact hq
  cases r with
  | ok txt =>
    have hne : txt ≠ "" := prepare_ok_ne_empty env user _ {} t' txt hp
    have hie : txt.isEmpty = false := isEmpty_false_of_ne txt hne
    dsimp only
    rw [if_pos (by rw [hL, hie]; rfl)]
    unfold pushMessageM
    rw [if_pos hP]
    exact ⟨by simp [hpu], rfl⟩
  | error e =>
    dsimp only
    rw [if_pos hL]
    unfold pushMessageM
    rw [if_pos hP]
    exact ⟨by simp [hpu], rfl⟩

/-- Witness for C8 at the stub environment (analysis yields the fallback
intent, whose prepared reply is the fixed cannot-assist text). -/
theorem processImage_push_exactly_once_witness :
    (runM (processImageInBackground envStub {})).2.pushes =
      [match (preparePushMessageFromIntent envStub {} envStub.analyzeImageAndPlan {}).1 with
       | .ok txt => txt
       | .error _ => backgroundApology] ∧
    (runM (processImageInBackground envStub {})).1 = .ok () :=
  processImage_push_exactly_once envStub {} rfl rfl

/-! ### Post-processing of image-derived plans (C10) -/

theorem mem_postProcess (plan : List PlanEvent) (e : PlanEvent)
    (he : e ∈ postProcessPlan plan) : (truthy e.date || truthy e.startTime) = true := by
  unfold postProcessPlan at he
  rcases List.mem_map.mp he with ⟨p, hp, hpe⟩
  have hpf := (List.mem_filter.mp hp).1
  have hmem : p.2 ∈ plan.filter
      (fun e => !e.summary.isEmpty && (truthy e.date || truthy e.startTime)) := by
    have h2 : p.2 ∈ (plan.filter
        (fun e => !e.summary.isEmpty && (truthy e.date || truthy e.startTime))).enum.map
          Prod.snd := List.mem_map_of_mem Prod.snd hpf
    rwa [List.enum_map_snd] at h2
  have hpred := (List.mem_filter.mp hmem).2
  rw [← hpe]
  exact (Bool.and_elim_right hpred)

/-- After post-processing, every surviving step carries a truthy date or
start time, so `isPlanComplete` holds — vacuously on the empty plan. -/
theorem isPlanComplete_postProcess (plan : List PlanEvent) :
    isPlanComplete (postProcessPlan plan) = true := by
  unfold isPlanComplete
  rw [List.all_eq_true]
  intro e he
  exact mem_postProcess plan e he

/-- C10: for every image-derived `plan_complex_task` intent the
post-processed plan passes `isPlanComplete` (vacuously when the filter
removed every step), so the handler persists `WaitingConfirmation` with
that plan — the empty plan included — and returns the confirmation
prompt; the cannot-extract reply branch, guarded by a failing
completeness check on a non-empty plan, is never reached on this path. -/
theorem prepare_image_plan_confirmation (env : Env) (user : UserCtx)
    (plan : List PlanEvent) (ot : Option String) (hset : env.setUserStateOk = true) :
    isPlanComplete (postProcessPlan plan) = true ∧
    preparePushMessageFromIntent env user (.planComplexTask plan ot) {} =
      (.ok (formatPlanForConfirmation (postProcessPlan plan) true),
        { stateWrites := [some (.waitingConfirmation (postProcessPlan plan))] }) := by
  refine ⟨isPlanComplete_postProcess plan, ?_⟩
  unfold preparePushMessageFromIntent
  dsimp only
  rw [if_pos (isPlanComplete_postProcess plan)]
  simp only [bind_apply, setUserStateM, hset, if_true, pure_apply, List.nil_append]

/-- Witness for C10: a single undated step is filtered out, leaving the
empty plan, which is persisted in `WaitingConfirmation`. -/
theorem prepare_image_plan_confirmation_witness :
    isPlanComplete (postProcessPlan [{ summary := "讀統計" }]) = true ∧
    preparePushMessageFromIntent envStub {}
        (.planComplexTask [{ summary := "讀統計" }] none) {} =
      (.ok (formatPlanForConfirmation (postProcessPlan [{ summary := "讀統計" }]) true),
        { stateWrites :=
            [some (.waitingConfirmation (postProcessPlan [{ summary := "讀統計" }]))] }) :=
  prepare_image_plan_confirmation envStub {} [{ summary := "讀統計" }] none rfl

end LineBot
